import Mathlib

set_option maxRecDepth 8000

/-!
Verification development for the Synthra markdown-to-Notion-block pipeline
(`src/backend/services/clean_content_parser.py` and the block-formatting part
of `src/backend/services/notion_service.py`).

Python strings are modelled as `List Char`; Python dicts that represent
Notion rich-text elements and blocks are modelled as Lean structures and
inductive types.  Each Lean definition is a direct transcription of the
corresponding Python function; where a Python construct (a regex, a stdlib
call) is involved, the definition implements the exact matching semantics of
that construct, documented at the definition site.
-/

namespace Synthra

instance {ε α : Type} [DecidableEq ε] [DecidableEq α] : DecidableEq (Except ε α) :=
  fun x y =>
    match x, y with
    | Except.ok a, Except.ok b =>
      if h : a = b then isTrue (by rw [h]) else isFalse (by simp [h])
    | Except.error a, Except.error b =>
      if h : a = b then isTrue (by rw [h]) else isFalse (by simp [h])
    | Except.ok _, Except.error _ => isFalse (by simp)
    | Except.error _, Except.ok _ => isFalse (by simp)

abbrev Str := List Char

/-- Python whitespace for `str.strip` and `\s`: space, tab, newline, carriage
return, vertical tab, form feed (the ASCII set used by `str.strip()`). -/
def pyWs (c : Char) : Bool :=
  c = ' ' || c = '\t' || c = '\n' || c = '\r' || c = '\x0b' || c = '\x0c'

/-- `str.lstrip()` -/
def lstripWs (l : Str) : Str := l.dropWhile pyWs

/-- `str.rstrip()` -/
def rstripWs (l : Str) : Str := (l.reverse.dropWhile pyWs).reverse

/-- `str.strip()` -/
def stripWs (l : Str) : Str := rstripWs (lstripWs l)

/-- `hay.startswith(needle)` -/
def startsWithL : Str → Str → Bool
  | [], _ => true
  | _ :: _, [] => false
  | p :: ps, c :: cs => p = c && startsWithL ps cs

/-- `hay.endswith(needle)` -/
def endsWithL (needle hay : Str) : Bool := startsWithL needle.reverse hay.reverse

/-- `needle in hay` (contiguous substring test). -/
def containsSeq (needle : Str) : Str → Bool
  | [] => startsWithL needle []
  | c :: cs => startsWithL needle (c :: cs) || containsSeq needle cs

/-- `s.split(sep)` for a one-character separator. -/
def splitChar (sep : Char) : Str → List Str
  | [] => [[]]
  | c :: cs =>
    if c = sep then [] :: splitChar sep cs
    else
      match splitChar sep cs with
      | [] => [[c]]
      | h :: t => (c :: h) :: t

def consHead (c : Char) : List Str → List Str
  | [] => [[c]]
  | h :: t => (c :: h) :: t

/-- `s.split(sep)` for a two-character separator (used for `'\n\n'` and
`'. '`), with Python's leftmost non-overlapping semantics. -/
def splitPair (a b : Char) : Str → List Str
  | [] => [[]]
  | [c] => [[c]]
  | c :: d :: rest =>
    if c = a ∧ d = b then [] :: splitPair a b rest
    else consHead c (splitPair a b (d :: rest))

/-- `sep.join(parts)` -/
def joinWith (sep : Str) : List Str → Str
  | [] => []
  | [x] => x
  | x :: y :: rest => x ++ sep ++ joinWith sep (y :: rest)

/-- ASCII model of `str.lower()` (all inputs relevant here are ASCII). -/
def lowerChar (c : Char) : Char :=
  if 'A' ≤ c ∧ c ≤ 'Z' then Char.ofNat (c.toNat + 32) else c

def pyLower (l : Str) : Str := l.map lowerChar

/-- Case-insensitive substring search: the skip/blocked patterns in the source
are `re.I` searches for pure-ASCII literal alternatives, equivalent to
lowering the text and searching for the lowercase literal. -/
def containsCI (needleLower : Str) (hay : Str) : Bool :=
  containsSeq needleLower (pyLower hay)

/-- `s.rfind(c)` (index of last occurrence, `none` instead of `-1`). -/
def rfindCharAux (c : Char) : Str → Nat → Option Nat
  | [], _ => none
  | x :: xs, i =>
    match rfindCharAux c xs (i + 1) with
    | some j => some j
    | none => if x = c then some i else none

def rfindChar (c : Char) (l : Str) : Option Nat := rfindCharAux c l 0

/-! ### Inline formatter (`CleanContentParser._parse_inline_formatting`)

The Python routine collects `re.finditer` matches of four patterns
(`$$(.+?)$$`, `**(.+?)**`, `*(.+?)*`, `` `([^`]+?)` ``), discards matches that
overlap previously collected ones, sorts by start position, and builds a list
of rich-text parts, splitting bold/italic content around inner equations.
A lazy pattern `open (.+?) close` matches at position `i` exactly when `open`
is at `i` and there is a minimal `j` such that `close` occurs at `j` with a
nonempty run of class-allowed characters (for `.`: anything but newline)
between; the engine consumes one content character, then tries `close` before
each further extension.  `scanPat` below implements exactly this, resuming
after each match end (non-overlapping finditer) or one past a failed start.
-/

structure Marks where
  bold : Bool
  italic : Bool
  code : Bool
deriving DecidableEq, Repr

inductive RTKind | text | equation
deriving DecidableEq, Repr

/-- One element of a Notion `rich_text` array: the `"type"` field, the
text/expression content, and the optional `"annotations"` dict (absent on
plain text and on equation elements). -/
structure RTPart where
  kind : RTKind
  content : Str
  marks : Option Marks
deriving DecidableEq, Repr

inductive Fmt | eq | bold | italic | code | strike
deriving DecidableEq, Repr

structure Pat where
  opn : Str
  cls : Str
  chOk : Char → Bool
  minOne : Bool

structure Mtch where
  start : Nat
  stop : Nat
  content : Str
  fmt : Fmt
deriving DecidableEq, Repr

/-- Lazy-quantifier content scan: starting after `k` consumed content
characters, first try the closing delimiter, otherwise consume one more
class-allowed character; fail at end of input or on a disallowed character. -/
def runFrom (cls : Str) (chOk : Char → Bool) : Str → Nat → Option Nat
  | rem, k =>
    if startsWithL cls rem then some k
    else
      match rem with
      | [] => none
      | c :: rest => if chOk c then runFrom cls chOk rest (k + 1) else none

/-- Try to match a delimited lazy pattern at the current position; returns
`(content length, total match length)`. -/
def tryHere (p : Pat) (rem : Str) : Option (Nat × Nat) :=
  if startsWithL p.opn rem then
    let rest := rem.drop p.opn.length
    if p.minOne then
      match rest with
      | [] => none
      | c :: rest' =>
        if p.chOk c then
          match runFrom p.cls p.chOk rest' 1 with
          | some k => some (k, p.opn.length + k + p.cls.length)
          | none => none
        else none
    else
      match runFrom p.cls p.chOk rest 0 with
      | some k => some (k, p.opn.length + k + p.cls.length)
      | none => none
  else none

/-- `re.finditer` for one delimited lazy pattern (fuel-driven; the fuel is
always at least the remaining length plus one, and every step either consumes
a whole match of length ≥ 1 or advances one character). -/
def scanPat (p : Pat) (f : Fmt) : Nat → Str → Nat → List Mtch
  | 0, _, _ => []
  | fuel + 1, rem, pos =>
    match tryHere p rem with
    | some (k, total) =>
      { start := pos, stop := pos + total,
        content := (rem.drop p.opn.length).take k, fmt := f }
        :: scanPat p f fuel (rem.drop total) (pos + total)
    | none =>
      match rem with
      | [] => []
      | _ :: rest => scanPat p f fuel rest (pos + 1)

def findIter (p : Pat) (f : Fmt) (t : Str) : List Mtch :=
  scanPat p f (t.length + 1) t 0

def notNL (c : Char) : Bool := c ≠ '\n'
def notBT (c : Char) : Bool := c ≠ '`'

def patEq : Pat := ⟨"$$".data, "$$".data, notNL, true⟩
def patBold : Pat := ⟨"**".data, "**".data, notNL, true⟩
def patItalic : Pat := ⟨"*".data, "*".data, notNL, true⟩
def patCode : Pat := ⟨"`".data, "`".data, notBT, true⟩

/-- The overlap test of the source: a new match is discarded when its start
falls inside an accepted match, or its end falls strictly-inside-or-at the
end of an accepted match. -/
def overlapsB (m e : Mtch) : Bool :=
  (decide (e.start ≤ m.start) && decide (m.start < e.stop)) ||
  (decide (e.start < m.stop) && decide (m.stop ≤ e.stop))

def overlapsAny (acc : List Mtch) (m : Mtch) : Bool := acc.any (overlapsB m)

def addNonOverlapping (acc : List Mtch) (ms : List Mtch) : List Mtch :=
  ms.foldl (fun a m => if overlapsAny a m then a else a ++ [m]) acc

/-- Stable insertion by start position (Python `list.sort(key=start)`). -/
def insByStart (m : Mtch) : List Mtch → List Mtch
  | [] => [m]
  | x :: xs => if x.start ≤ m.start then x :: insByStart m xs else m :: x :: xs

def sortByStart (l : List Mtch) : List Mtch :=
  l.foldl (fun acc m => insByStart m acc) []

def cleanPats : List (Pat × Fmt) :=
  [(patEq, Fmt.eq), (patBold, Fmt.bold), (patItalic, Fmt.italic), (patCode, Fmt.code)]

def gatherMatches (t : Str) : List Mtch :=
  sortByStart (cleanPats.foldl (fun acc pf => addNonOverlapping acc (findIter pf.1 pf.2 t)) [])

def mkMarks (f : Fmt) : Marks :=
  ⟨decide (f = Fmt.bold), decide (f = Fmt.italic), false⟩

/-- Splitting bold/italic content around the inner `$$...$$` equations. -/
def innerSplitGo (f : Fmt) (content : Str) : List Mtch → Nat → List RTPart
  | [], ipos =>
    if ipos < content.length then
      if content.drop ipos = [] then []
      else [⟨RTKind.text, content.drop ipos, some (mkMarks f)⟩]
    else []
  | e :: rest, ipos =>
    (if ipos < e.start then
      if (content.drop ipos).take (e.start - ipos) = [] then []
      else [⟨RTKind.text, (content.drop ipos).take (e.start - ipos), some (mkMarks f)⟩]
    else []) ++
    [⟨RTKind.equation, e.content, none⟩] ++
    innerSplitGo f content rest e.stop

def innerSplit (f : Fmt) (content : Str) : List RTPart :=
  if findIter patEq Fmt.eq content = [] then [⟨RTKind.text, content, some (mkMarks f)⟩]
  else innerSplitGo f content (findIter patEq Fmt.eq content) 0

/-- The part-building loop over the sorted matches: skip matches already
passed, emit the untagged gap text, then the match's parts. -/
def buildParts (t : Str) : List Mtch → Nat → List RTPart
  | [], cur =>
    if cur < t.length then
      if t.drop cur = [] then [] else [⟨RTKind.text, t.drop cur, none⟩]
    else []
  | m :: rest, cur =>
    if m.start < cur then buildParts t rest cur
    else
      (if cur < m.start then
        if (t.drop cur).take (m.start - cur) = [] then []
        else [⟨RTKind.text, (t.drop cur).take (m.start - cur), none⟩]
      else []) ++
      (match m.fmt with
       | Fmt.eq => [⟨RTKind.equation, m.content, none⟩]
       | Fmt.bold => innerSplit Fmt.bold m.content
       | Fmt.italic => innerSplit Fmt.italic m.content
       | f => [⟨RTKind.text, m.content, some ⟨false, false, decide (f = Fmt.code)⟩⟩]) ++
      buildParts t rest m.stop

/-- `CleanContentParser._parse_inline_formatting` -/
def inlineFormat (t : Str) : List RTPart :=
  if buildParts t (gatherMatches t) 0 = [] then [⟨RTKind.text, t, none⟩]
  else buildParts t (gatherMatches t) 0

/-- `CleanContentParser._create_rich_text`: chunk text over 2000 characters
into 1900-character pieces and cap the element count at 100. -/
def chunksGo : Nat → Str → List RTPart
  | 0, _ => []
  | _ + 1, [] => []
  | fuel + 1, c :: rest =>
    inlineFormat ((c :: rest).take 1900) ++ chunksGo fuel ((c :: rest).drop 1900)

def createRichText (t : Str) : List RTPart :=
  if t.length ≤ 2000 then inlineFormat t
  else (chunksGo (t.length + 1) t).take 100

end Synthra

namespace Synthra

/-! ### Notion block model (`CleanContentParser._create_*` helpers)

Each constructor mirrors the dict shape built by the corresponding
`_create_*` helper: heading/paragraph/bullet/numbered blocks carry a
`rich_text` array, a code block carries its normalized language and its
(2000-capped) text, an equation block its (2000-capped) expression, an image
block its encoded URL plus optional (2000-capped) caption, and a table block
its width and its rows of rich-text cells (header row first). -/

inductive Block
  | heading (level : Nat) (rich : List RTPart)
  | paragraph (rich : List RTPart)
  | bullet (rich : List RTPart)
  | numbered (rich : List RTPart)
  | codeB (language : Str) (content : Str)
  | equationB (expression : Str)
  | image (url : Str) (caption : Option Str)
  | tableB (width : Nat) (rows : List (List (List RTPart)))
deriving DecidableEq, Repr

def createHeading (text : Str) (level : Nat) : Block :=
  Block.heading level (createRichText text)

def createParagraph (text : Str) : Block := Block.paragraph (createRichText text)

def createBullet (text : Str) : Block := Block.bullet (createRichText text)

def createNumbered (text : Str) : Block := Block.numbered (createRichText text)

def createEquationBlock (e : Str) : Block := Block.equationB (e.take 2000)

/-- `CleanContentParser._create_error_blocks` -/
def createErrorBlocks (msg : Str) : List Block :=
  [createHeading ("⚠️ Content Extraction Error").data 1,
   createParagraph msg,
   createParagraph ("Try opening the page directly or check if it contains educational content.").data]

/-! ### Code blocks (`CleanContentParser._create_code_block`) -/

def lookupStr (k : Str) : List (Str × Str) → Option Str
  | [] => none
  | (a, b) :: rest => if a = k then some b else lookupStr k rest

def elemStr (x : Str) (l : List Str) : Bool := l.any (fun y => decide (y = x))

def langMap : List (Str × Str) :=
  [(("py").data, ("python").data), (("js").data, ("javascript").data),
   (("jsx").data, ("javascript").data), (("react").data, ("javascript").data),
   (("tsx").data, ("typescript").data), (("ts").data, ("typescript").data),
   (("cpp").data, ("c++").data), (("c++").data, ("c++").data),
   (("cxx").data, ("c++").data), (("sh").data, ("shell").data),
   (("bash").data, ("shell").data), (("zsh").data, ("shell").data),
   (("yml").data, ("yaml").data), (("dockerfile").data, ("docker").data),
   (("makefile").data, ("makefile").data), (("txt").data, ("plain text").data),
   (("text").data, ("plain text").data), (("plaintext").data, ("plain text").data),
   (("console").data, ("shell").data), (("cmd").data, ("powershell").data)]

def validLanguages : List Str :=
  [("abap").data, ("abc").data, ("agda").data, ("arduino").data, ("ascii art").data,
   ("assembly").data, ("bash").data, ("basic").data, ("bnf").data, ("c").data,
   ("c#").data, ("c++").data, ("clojure").data, ("coffeescript").data, ("coq").data,
   ("css").data, ("dart").data, ("dhall").data, ("diff").data, ("docker").data,
   ("ebnf").data, ("elixir").data, ("elm").data, ("erlang").data, ("f#").data,
   ("flow").data, ("fortran").data, ("gherkin").data, ("glsl").data, ("go").data,
   ("graphql").data, ("groovy").data, ("haskell").data, ("hcl").data, ("html").data,
   ("idris").data, ("java").data, ("javascript").data, ("json").data, ("julia").data,
   ("kotlin").data, ("latex").data, ("less").data, ("lisp").data, ("livescript").data,
   ("llvm ir").data, ("lua").data, ("makefile").data, ("markdown").data, ("markup").data,
   ("matlab").data, ("mathematica").data, ("mermaid").data, ("nix").data,
   ("notion formula").data, ("objective-c").data, ("ocaml").data, ("pascal").data,
   ("perl").data, ("php").data, ("plain text").data, ("powershell").data,
   ("prolog").data, ("protobuf").data, ("purescript").data, ("python").data,
   ("r").data, ("racket").data, ("reason").data, ("ruby").data, ("rust").data,
   ("sass").data, ("scala").data, ("scheme").data, ("scss").data, ("shell").data,
   ("smalltalk").data, ("solidity").data, ("sql").data, ("swift").data, ("toml").data,
   ("typescript").data, ("vb.net").data, ("verilog").data, ("vhdl").data,
   ("visual basic").data, ("webassembly").data, ("xml").data, ("yaml").data,
   ("java/c/c++/c#").data]

def createCodeBlock (code language : Str) : Block :=
  let key := stripWs (pyLower language)
  let norm := match lookupStr key langMap with
    | some v => v
    | none => key
  let final := if elemStr norm validLanguages then norm else ("plain text").data
  Block.codeB final (code.take 2000)

/-! ### Image blocks (`CleanContentParser._create_image_block`)

`urllib.parse.urlparse` is modelled for the URL shapes that can reach it
(strings starting with `http://` or `https://` always parse without raising,
so the `except` path of the source is unreachable); `urllib.parse.quote`
percent-encodes the UTF-8 bytes of every character outside the always-safe
set (letters, digits, `_.-~`) and the given safe set, with uppercase hex. -/

def isAlphaB (c : Char) : Bool :=
  ('a' ≤ c && c ≤ 'z') || ('A' ≤ c && c ≤ 'Z')

def isDigitB (c : Char) : Bool := '0' ≤ c && c ≤ '9'

def schemeChar (c : Char) : Bool :=
  isAlphaB c || isDigitB c || c = '+' || c = '-' || c = '.'

structure UrlParts where
  scheme : Str
  netloc : Str
  path : Str
  query : Str
  frag : Str
deriving DecidableEq, Repr

def urlparseSimple (u : Str) : UrlParts :=
  let beforeColon := u.takeWhile (fun c => !(c = ':'))
  let hasScheme := beforeColon.length < u.length && beforeColon ≠ [] &&
    isAlphaB (beforeColon.headD ' ') && beforeColon.all schemeChar
  let scheme := if hasScheme then pyLower beforeColon else []
  let rest := if hasScheme then u.drop (beforeColon.length + 1) else u
  let hasNetloc := startsWithL ("//").data rest
  let rest1 := if hasNetloc then rest.drop 2 else rest
  let netloc :=
    if hasNetloc then rest1.takeWhile (fun c => !(c = '/' || c = '?' || c = '#')) else []
  let rest2 := if hasNetloc then rest1.drop netloc.length else rest
  let pq := rest2.takeWhile (fun c => !(c = '#'))
  let frag := rest2.drop (pq.length + 1)
  let path := pq.takeWhile (fun c => !(c = '?'))
  let query := pq.drop (path.length + 1)
  ⟨scheme, netloc, path, query, frag⟩

def hexDigitU (n : Nat) : Char :=
  if n < 10 then Char.ofNat (48 + n) else Char.ofNat (55 + n)

/-- UTF-8 bytes of a character (standard 1-4 byte encoding). -/
def utf8Bytes (c : Char) : List Nat :=
  let n := c.toNat
  if n < 0x80 then [n]
  else if n < 0x800 then [0xC0 + n / 0x40, 0x80 + n % 0x40]
  else if n < 0x10000 then
    [0xE0 + n / 0x1000, 0x80 + (n / 0x40) % 0x40, 0x80 + n % 0x40]
  else
    [0xF0 + n / 0x40000, 0x80 + (n / 0x1000) % 0x40,
     0x80 + (n / 0x40) % 0x40, 0x80 + n % 0x40]

def quoteSafeChar (safe : List Char) (c : Char) : Str :=
  if isAlphaB c || isDigitB c || c = '_' || c = '.' || c = '-' || c = '~' ||
      safe.any (fun s => decide (s = c)) then [c]
  else (utf8Bytes c).foldr
    (fun b acc => '%' :: hexDigitU (b / 16) :: hexDigitU (b % 16) :: acc) []

def pyQuote (safe : List Char) (l : Str) : Str :=
  l.foldr (fun c acc => quoteSafeChar safe c ++ acc) []

def problematicUrlPats : List Str :=
  [("localhost").data, ("127.0.0.1").data, ("file://").data, ("data:image").data,
   ("blob:").data, ("javascript:").data, ("about:").data]

def captionOr (caption : Str) (dflt : Str) : Str :=
  if caption ≠ [] then caption else dflt

def createImageBlock (imageUrl caption : Str) : Block :=
  if imageUrl = [] ∨ 2000 < imageUrl.length then
    Block.paragraph
      [⟨RTKind.text, ("[Image: ").data ++ captionOr caption ("Untitled").data ++ ("]").data, none⟩]
  else if problematicUrlPats.any (fun p => containsSeq p (pyLower imageUrl)) then
    Block.paragraph
      [⟨RTKind.text,
        ("📷 [Image not accessible: ").data ++ captionOr caption ("External image").data ++
          ("]").data, none⟩]
  else
    let parsed := urlparseSimple imageUrl
    if parsed.scheme = [] ∨ parsed.netloc = [] then
      Block.paragraph
        [⟨RTKind.text,
          ("📷 [Invalid image URL: ").data ++ captionOr caption ("Untitled").data ++ ("]").data,
          none⟩]
    else
      let encoded := parsed.scheme ++ ("://").data ++ parsed.netloc ++
        pyQuote ['/', ':'] parsed.path ++
        (if parsed.query ≠ [] then '?' :: pyQuote ['&', '='] parsed.query else [])
      Block.image encoded (if caption ≠ [] then some (caption.take 2000) else none)

/-! ### Image markdown extraction (regex `!\[([^\]]*)\]\(([^)]+)\)`)

Both character classes exclude their closing delimiter, so the greedy runs
stop at the first `]` / `)` and the regex admits no backtracking: a match at
a position is exactly `![`, a `]`-free run, `](`, a nonempty `)`-free run,
`)`. -/

def imgTryHere (rem : Str) : Option (Str × Str × Nat) :=
  match rem with
  | '!' :: '[' :: rest =>
    let alt := rest.takeWhile (fun c => !(c = ']'))
    (match rest.drop alt.length with
     | ']' :: '(' :: rest2 =>
       let url := rest2.takeWhile (fun c => !(c = ')'))
       if url = [] then none
       else
         match rest2.drop url.length with
         | ')' :: _ => some (alt, url, alt.length + url.length + 5)
         | _ => none
     | _ => none)
  | _ => none

def imgScan : Nat → Str → List (Str × Str)
  | 0, _ => []
  | fuel + 1, rem =>
    match imgTryHere rem with
    | some (alt, url, total) => (alt, url) :: imgScan fuel (rem.drop total)
    | none =>
      match rem with
      | [] => []
      | _ :: rest => imgScan fuel rest

def imgFindAll (l : Str) : List (Str × Str) := imgScan (l.length + 1) l

/-- `re.sub(image_pattern, '', line)` -/
def imgSub : Nat → Str → Str
  | 0, rem => rem
  | fuel + 1, rem =>
    match imgTryHere rem with
    | some (_, _, total) => imgSub fuel (rem.drop total)
    | none =>
      match rem with
      | [] => []
      | c :: rest => c :: imgSub fuel rest

def imgRemove (l : Str) : Str := imgSub (l.length + 1) l

/-! ### Line classification helpers -/

/-- `re.match(r'^\d+\.\s+(.+)$', line)` (ASCII digits; on the rstripped lines
this is applied to, the whitespace run after the dot is never line-final, so
maximal-run matching coincides with the regex). -/
def numMatch (line : Str) : Option Str :=
  let ds := line.takeWhile isDigitB
  if ds = [] then none
  else
    match line.drop ds.length with
    | '.' :: rest =>
      let ws := rest.takeWhile pyWs
      if ws = [] then none
      else
        let rem := rest.drop ws.length
        if rem = [] then none else some rem
    | _ => none

/-- `re.match(r'^\d+\.\s+', line)` -/
def numStart (line : Str) : Bool :=
  let ds := line.takeWhile isDigitB
  ds ≠ [] &&
    (match line.drop ds.length with
     | '.' :: rest => rest.takeWhile pyWs ≠ []
     | _ => false)

/-- `CleanContentParser._is_special_line` -/
def isSpecialLine (l : Str) : Bool :=
  let y := lstripWs l
  startsWithL ("#").data y || startsWithL ("- ").data y || startsWithL ("* ").data y ||
    startsWithL ("```").data y || startsWithL ("|").data y || numStart y

/-! ### Markdown tables (`CleanContentParser._parse_markdown_table`) -/

/-- Separator-row cell: `^:?-+:?$`. -/
def sepCellB (c : Str) : Bool :=
  let c1 := match c with
    | ':' :: r => r
    | r => r
  let ds := c1.takeWhile (fun x => decide (x = '-'))
  ds ≠ [] &&
    (match c1.drop ds.length with
     | [] => true
     | [':'] => true
     | _ => false)

def tableCells (line : Str) : List Str :=
  ((splitChar '|' line).map stripWs).filter (fun c => c ≠ [])

def gatherTable : List Str → Option (List Str) → List (List Str) →
    Option (List Str) × List (List Str)
  | [], h, rows => (h, rows)
  | line :: rest, h, rows =>
    let cells := tableCells line
    if cells.all sepCellB then gatherTable rest h rows
    else
      match h with
      | none => gatherTable rest (some cells) rows
      | some hdr => gatherTable rest (some hdr) (rows ++ [cells])

def padTruncate (num : Nat) (row : List Str) : List Str :=
  (row ++ List.replicate (num - row.length) []).take num

def parseMarkdownTable (tlines : List Str) : List Block :=
  match gatherTable tlines none [] with
  | (some hdr, rows) =>
    if hdr = [] ∨ rows = [] then []
    else
      let num := hdr.length
      [Block.tableB num
        ((hdr.map createRichText) ::
          rows.map (fun r => (padTruncate num r).map createRichText))]
  | (none, _) => []

/-! ### The block lexer (`CleanContentParser._markdown_to_notion_blocks`)

Fuel-driven transcription of the `while i < len(lines)` loop; every branch
consumes at least one line, so fuel `length + 1` never runs out.  The unused
`base_url` parameter of the source is omitted. -/

/-- First segment of `s.split(needle, 1)`. -/
def beforeSeq (needle : Str) : Str → Str
  | [] => []
  | c :: cs => if startsWithL needle (c :: cs) then [] else c :: beforeSeq needle cs

/-- `s.split(None, 1)` -/
def pySplitWs1 (l : Str) : List Str :=
  let l1 := lstripWs l
  if l1 = [] then []
  else
    let tok := l1.takeWhile (fun c => !(pyWs c))
    let rest2 := lstripWs (l1.drop tok.length)
    if rest2 = [] then [tok] else [tok, rest2]

def chop1900 : Nat → Str → List Str
  | 0, _ => []
  | _ + 1, [] => []
  | fuel + 1, c :: rest =>
    ((c :: rest).take 1900) :: chop1900 fuel ((c :: rest).drop 1900)

def mdLoop : Nat → List Str → List Block
  | 0, _ => []
  | _ + 1, [] => []
  | fuel + 1, l :: rest =>
    let line := rstripWs l
    if line = [] then mdLoop fuel rest
    else
      let sl := lstripWs line
      if startsWithL ("```").data sl then
        let restOfLine := sl.drop 3
        if containsSeq ("```").data restOfLine then
          let opening := stripWs (beforeSeq ("```").data restOfLine)
          let lc := pySplitWs1 opening
          let language := match lc with
            | [a] => a
            | [a, _] => a
            | _ => ("plain text").data
          let codeContent := match lc with
            | [_, b] => b
            | _ => []
          (if codeContent ≠ [] then [createCodeBlock codeContent language] else []) ++
            mdLoop fuel rest
        else
          let parts := pySplitWs1 restOfLine
          let language := match parts with
            | a :: _ => if a = [] then ("plain text").data else a
            | [] => ("plain text").data
          let codeLines0 : List Str := match parts with
            | [_, b] => [b]
            | _ => []
          let collected := rest.takeWhile (fun x => !(startsWithL ("```").data (lstripWs x)))
          let after := (rest.drop collected.length).drop 1
          let codeLines := codeLines0 ++ collected
          (if codeLines ≠ [] then
            let codeContent := joinWith ['\n'] codeLines
            if codeContent.length ≤ 2000 then [createCodeBlock codeContent language]
            else (chop1900 (codeContent.length + 1) codeContent).map
              (fun ch => createCodeBlock ch language)
          else []) ++ mdLoop fuel after
      else if startsWithL ("# ").data line then
        createHeading (stripWs (line.drop 2)) 1 :: mdLoop fuel rest
      else if startsWithL ("## ").data line then
        createHeading (stripWs (line.drop 3)) 2 :: mdLoop fuel rest
      else if startsWithL ("### ").data line then
        createHeading (stripWs (line.drop 4)) 3 :: mdLoop fuel rest
      else if startsWithL ("#### ").data line then
        createHeading (stripWs (line.dropWhile (fun c => decide (c = '#')))) 3 ::
          mdLoop fuel rest
      else if startsWithL ("$$").data (stripWs line) && endsWithL ("$$").data (stripWs line) &&
          decide (4 < (stripWs line).length) then
        createEquationBlock (stripWs (((stripWs line).drop 2).take ((stripWs line).length - 4))) ::
          mdLoop fuel rest
      else if containsSeq ("![").data line && containsSeq ("](").data line &&
          !(imgFindAll line).isEmpty then
        let imgs := imgFindAll line
        let imgBlocks := imgs.foldr (fun au acc =>
          (let iurl := stripWs (au.2.takeWhile (fun c => !(c = '"')))
           if iurl ≠ [] &&
               (startsWithL ("http://").data iurl || startsWithL ("https://").data iurl)
           then [createImageBlock iurl au.1] else []) ++ acc) []
        let leftover := stripWs (imgRemove line)
        imgBlocks ++ (if leftover ≠ [] then [createParagraph leftover] else []) ++
          mdLoop fuel rest
      else if startsWithL ("- ").data line || startsWithL ("* ").data line then
        createBullet (stripWs (line.drop 2)) :: mdLoop fuel rest
      else if (numMatch line).isSome then
        createNumbered ((numMatch line).getD []) :: mdLoop fuel rest
      else if startsWithL ("|").data line then
        let run := (l :: rest).takeWhile (fun x => startsWithL ("|").data (stripWs x))
        let remaining := (l :: rest).drop run.length
        parseMarkdownTable (run.map stripWs) ++ mdLoop fuel remaining
      else
        let paraCont := rest.takeWhile (fun x => x ≠ [] && !(isSpecialLine x))
        let paraText := joinWith [' '] (line :: paraCont)
        createParagraph paraText :: mdLoop fuel (rest.drop paraCont.length)

def mdToBlocks (markdown : Str) : List Block :=
  let lines := splitChar '\n' markdown
  mdLoop (lines.length + 1) lines

end Synthra

namespace Synthra

/-! ### Content extraction (`CleanContentParser._extract_educational_content`)

The skip/footer patterns are `re.I` searches whose alternatives are ASCII
literals, except for `corporate.{0,20}address` and `floor.{0,30}noida` /
`floor.{0,30}uttar pradesh`, which allow a bounded gap of arbitrary
characters (the lines searched never contain `'\n'`, so `.` is unrestricted
there), and the two start-anchored footer alternatives. -/

inductive Alt
  | lit (s : Str)
  | gap (a : Str) (maxGap : Nat) (b : Str)

def gapAfter (b : Str) : Nat → Str → Bool
  | 0, rem => startsWithL b rem
  | g + 1, rem =>
    startsWithL b rem ||
      (match rem with
       | [] => false
       | _ :: r => gapAfter b g r)

def gapHit (a : Str) (g : Nat) (b : Str) : Str → Bool
  | [] => startsWithL a [] && gapAfter b g []
  | c :: cs =>
    (startsWithL a (c :: cs) && gapAfter b g ((c :: cs).drop a.length)) || gapHit a g b cs

def altHit (lowerLine : Str) : Alt → Bool
  | Alt.lit s => containsSeq s lowerLine
  | Alt.gap a g b => gapHit a g b lowerLine

def skipAlts : List (List Alt) :=
  [[Alt.lit ("skip to").data, Alt.lit ("sign in").data, Alt.lit ("log in").data,
    Alt.lit ("register").data, Alt.lit ("subscribe").data, Alt.lit ("newsletter").data],
   [Alt.lit ("menu").data, Alt.lit ("navigation").data, Alt.lit ("nav").data,
    Alt.lit ("footer").data, Alt.lit ("header").data, Alt.lit ("sidebar").data],
   [Alt.lit ("cookie").data, Alt.lit ("gdpr").data, Alt.lit ("privacy").data,
    Alt.lit ("terms").data, Alt.lit ("legal").data, Alt.lit ("copyright").data],
   [Alt.lit ("advertisement").data, Alt.lit ("sponsored").data, Alt.lit ("promo").data,
    Alt.lit ("marketing").data],
   [Alt.lit ("share").data, Alt.lit ("like").data, Alt.lit ("comment").data,
    Alt.lit ("follow").data, Alt.lit ("social").data],
   [Alt.lit ("related articles").data, Alt.lit ("you might also").data,
    Alt.lit ("popular posts").data],
   [Alt.lit ("table of contents").data],
   [Alt.lit ("all rights reserved").data, Alt.lit ("back to top").data],
   [Alt.gap ("corporate").data 20 ("address").data, Alt.lit ("registered address").data,
    Alt.lit ("communications address").data],
   [Alt.lit ("tower").data, Alt.lit ("sector").data, Alt.lit ("apartment").data,
    Alt.gap ("floor").data 30 ("noida").data,
    Alt.gap ("floor").data 30 ("uttar pradesh").data],
   [Alt.lit ("contact us").data, Alt.lit ("advertise with").data, Alt.lit ("about us").data,
    Alt.lit ("careers").data]]

def skipHit (line : Str) : Bool :=
  let low := pyLower line
  skipAlts.any (fun alts => alts.any (altHit low))

/-- `^\s*K\s+\d+` branch of the footer regex (anchored; `K` case-insensitive,
the maximal whitespace run before the digit matches the greedy `\s+`). -/
def footerK (line : Str) : Bool :=
  match lstripWs line with
  | c :: rest =>
    (c = 'K' || c = 'k') &&
      (let ws := rest.takeWhile pyWs
       ws ≠ [] &&
         (match rest.drop ws.length with
          | d :: _ => isDigitB d
          | [] => false))
  | [] => false

/-- `^A-\d+` branch of the footer regex. -/
def footerA (line : Str) : Bool :=
  match line with
  | a :: '-' :: d :: _ => (a = 'A' || a = 'a') && isDigitB d
  | _ => false

def footerHit (line : Str) : Bool :=
  gapHit ("corporate").data 20 ("address").data (pyLower line) ||
    containsCI ("registered address").data line || footerK line || footerA line

/-- The keep/skip loop over content lines; detecting a footer stops the whole
loop (Python `break`).  A line is kept when it is over 20 characters and its
`[a-zA-Z]` count exceeds 40% of its length (`5·alpha > 2·len` is the exact
integer form of the float comparison). -/
def eduLines : List Str → List Str
  | [] => []
  | l :: rest =>
    let line := stripWs l
    if line = [] || decide (line.length < 10) then eduLines rest
    else if footerHit line then []
    else if skipHit line then eduLines rest
    else if decide (20 < line.length) && decide (2 * line.length < 5 * line.countP isAlphaB)
    then line :: eduLines rest
    else eduLines rest

/-- `re.sub(r'<script[^>]*>.*?</script>', '', s, flags=DOTALL|I)` (and the
same for `<style>`): at each position, a case-insensitive opening tag, a
`>`-free attribute run, `>`, then the lazy body up to the first
case-insensitive closing tag; without a closing tag the regex fails at that
position and scanning resumes one character later. -/
def startsCI (needle : Str) (rem : Str) : Bool :=
  startsWithL needle (pyLower (rem.take needle.length))

def idxOfCI (needle : Str) : Str → Option Nat
  | [] => none
  | c :: cs => if startsCI needle (c :: cs) then some 0 else (idxOfCI needle cs).map (· + 1)

def removeTagBlock (opn close : Str) : Nat → Str → Str
  | 0, rem => rem
  | fuel + 1, rem =>
    match rem with
    | [] => []
    | c :: rest =>
      if startsCI opn (c :: rest) then
        let afterOpn := (c :: rest).drop opn.length
        let attrs := afterOpn.takeWhile (fun x => !(x = '>'))
        match afterOpn.drop attrs.length with
        | '>' :: body =>
          (match idxOfCI close body with
           | some i => removeTagBlock opn close fuel (body.drop (i + close.length))
           | none => c :: removeTagBlock opn close fuel rest)
        | _ => c :: removeTagBlock opn close fuel rest
      else c :: removeTagBlock opn close fuel rest

/-- `re.sub(r'<[^>]+>', ' ', s)` -/
def removeTags : Nat → Str → Str
  | 0, rem => rem
  | fuel + 1, rem =>
    match rem with
    | [] => []
    | '<' :: rest =>
      let inner := rest.takeWhile (fun x => !(x = '>'))
      if inner ≠ [] then
        match rest.drop inner.length with
        | '>' :: after => ' ' :: removeTags fuel after
        | _ => '<' :: removeTags fuel rest
      else '<' :: removeTags fuel rest
    | c :: rest => c :: removeTags fuel rest

/-- `html.unescape`, modelled for the common entities
(`&amp; &lt; &gt; &quot; &apos; &nbsp; &#<decimal>;`); the full HTML5 named
table and the bare-ampersand legacy forms are outside the model.  No theorem
below depends on entity decoding. -/
def unescapeHtml : Nat → Str → Str
  | 0, rem => rem
  | fuel + 1, rem =>
    match rem with
    | [] => []
    | '&' :: rest =>
      if startsWithL ("amp;").data rest then '&' :: unescapeHtml fuel (rest.drop 4)
      else if startsWithL ("lt;").data rest then '<' :: unescapeHtml fuel (rest.drop 3)
      else if startsWithL ("gt;").data rest then '>' :: unescapeHtml fuel (rest.drop 3)
      else if startsWithL ("quot;").data rest then '"' :: unescapeHtml fuel (rest.drop 5)
      else if startsWithL ("apos;").data rest then '\'' :: unescapeHtml fuel (rest.drop 5)
      else if startsWithL ("nbsp;").data rest then ' ' :: unescapeHtml fuel (rest.drop 5)
      else if startsWithL ("#").data rest then
        let ds := (rest.drop 1).takeWhile isDigitB
        (match (rest.drop 1).drop ds.length with
         | ';' :: after =>
           if ds ≠ [] && decide (ds.foldl (fun n d => 10 * n + (d.toNat - 48)) 0 < 0x110000)
           then Char.ofNat (ds.foldl (fun n d => 10 * n + (d.toNat - 48)) 0) ::
             unescapeHtml fuel after
           else '&' :: unescapeHtml fuel rest
         | _ => '&' :: unescapeHtml fuel rest)
      else '&' :: unescapeHtml fuel rest
    | c :: rest => c :: unescapeHtml fuel rest

/-- `re.sub(r'\n\s*\n\s*\n+', '\n\n', s)`: the pattern matches at a newline
whose maximal whitespace run contains at least three newlines; with greedy
backtracking the accepted extent ends right after the last newline of that
run, and the run is replaced by exactly two newlines. -/
def collapseNl : Nat → Str → Str
  | 0, rem => rem
  | fuel + 1, rem =>
    match rem with
    | [] => []
    | c :: rest =>
      if c = '\n' then
        let w := (c :: rest).takeWhile pyWs
        if 3 ≤ w.countP (fun x => decide (x = '\n')) then
          let tailLen := (w.reverse.takeWhile (fun x => !(x = '\n'))).length
          '\n' :: '\n' :: collapseNl fuel ((c :: rest).drop (w.length - tailLen))
        else c :: collapseNl fuel rest
      else c :: collapseNl fuel rest

/-- Conservative model of the `ast.literal_eval` unwrap applied to inputs
starting with `{'content':` — exact for the shape
`{'content': '<text without quote or backslash>'}` and otherwise taking the
source's `except` path (returning the raw input).  No theorem below exercises
this branch. -/
def contentDictEval (raw : Str) : Option Str :=
  let v := lstripWs (raw.drop 11)
  match v with
  | '\'' :: body =>
    let s := body.takeWhile (fun c => !(c = '\'' || c = '\\'))
    (match body.drop s.length with
     | '\'' :: tail => if stripWs tail = ['\x7d'] then some s else none
     | _ => none)
  | _ => none

def blockedIndicators : List Str :=
  [("securitycompromiseerror").data, ("access blocked").data,
   ("ddos attack suspected").data, ("too many requests").data, ("code 451").data,
   ("anonymous access blocked").data, ("cloudflare").data,
   ("you have been blocked").data, ("access denied").data,
   ("rate limit exceeded").data, ("bot detection").data]

/-- The dictionary-unwrap step of `_extract_educational_content`. -/
def unwrapContent (raw : Str) : Str :=
  if startsWithL ("\x7b'content':").data raw then
    match contentDictEval raw with
    | some c => c
    | none => raw
  else raw

/-- Count of blocked-page indicators present in the lowercased content. -/
def blockedHits (content0 : Str) : Nat :=
  (blockedIndicators.filter (fun i => containsSeq i (pyLower content0))).length

/-- The HTML-removal stage of `_extract_educational_content`. -/
def stripHtml (content0 : Str) : Str :=
  unescapeHtml
    ((removeTags
      ((removeTagBlock ("<style").data ("</style>").data
        ((removeTagBlock ("<script").data ("</script>").data (content0.length + 1)
          content0).length + 1)
        (removeTagBlock ("<script").data ("</script>").data (content0.length + 1)
          content0)).length + 1)
      (removeTagBlock ("<style").data ("</style>").data
        ((removeTagBlock ("<script").data ("</script>").data (content0.length + 1)
          content0).length + 1)
        (removeTagBlock ("<script").data ("</script>").data (content0.length + 1)
          content0))).length + 1)
    (removeTags
      ((removeTagBlock ("<style").data ("</style>").data
        ((removeTagBlock ("<script").data ("</script>").data (content0.length + 1)
          content0).length + 1)
        (removeTagBlock ("<script").data ("</script>").data (content0.length + 1)
          content0)).length + 1)
      (removeTagBlock ("<style").data ("</style>").data
        ((removeTagBlock ("<script").data ("</script>").data (content0.length + 1)
          content0).length + 1)
        (removeTagBlock ("<script").data ("</script>").data (content0.length + 1)
          content0)))

/-- The line-filtering, joining, newline-collapsing and stripping stage. -/
def extractClean (content0 : Str) : Str :=
  stripWs
    (collapseNl ((joinWith ['\n'] (eduLines (splitChar '\n' (stripHtml content0)))).length + 1)
      (joinWith ['\n'] (eduLines (splitChar '\n' (stripHtml content0)))))

/-- `CleanContentParser._extract_educational_content`.  The blocked-page check
raises `ValueError` (modelled as `Except.error`) when any indicator occurs
and either more than 20% of the indicators occur (`count/11 > 0.2`, i.e.
`5·count > 11`) or the content is under 500 characters. -/
def extractEducational (raw : Str) : Except Str Str :=
  if 0 < blockedHits (unwrapContent raw) ∧
      (11 < 5 * blockedHits (unwrapContent raw) ∨ (unwrapContent raw).length < 500) then
    Except.error
      ("Website blocked access - possible bot detection. Try again later or use a different method.").data
  else Except.ok (extractClean (unwrapContent raw))

/-! ### Manual fallback (`CleanContentParser._manual_structure_for_notion`) -/

def manualParaBlock (para : Str) : List Block :=
  if stripWs para = [] then []
  else if decide ((stripWs para).length < 100) && ! endsWithL (".").data (stripWs para) then
    [createHeading (stripWs para) 2]
  else if (match stripWs para with
           | c :: _ => c = '-' || c = '•' || c = '*'
           | [] => false) then
    [createBullet (stripWs (stripWs para).tail)]
  else [createParagraph (stripWs para)]

def manualStructure (clean title url : Str) : List Block :=
  (if title ≠ [] then [createHeading title 1] else []) ++
  (if url ≠ [] then [createParagraph (("Source: ").data ++ url)] else []) ++
  (splitPair '\n' '\n' clean).foldr (fun para acc => manualParaBlock para ++ acc) []

/-! ### Top-level assembly (`CleanContentParser.parse_and_format_for_notion`)

The Gemini call is the external collaborator: the parameter
`ai : Option (Except Unit Str)` models its outcome — `none` when AI is
disabled or no model is configured (`use_ai and self.model` false),
`some (Except.error ())` when the call raises (caught by the source and sent
to the manual fallback), `some (Except.ok resp)` when it returns response
text, which `_ai_structure_for_notion` strips of code-fence wrappers and
feeds to the block lexer. -/

def aiStructure (resp : Str) : List Block :=
  let md0 := stripWs resp
  let md1 := if startsWithL ("```markdown").data md0 then md0.drop 11 else md0
  let md2 := if startsWithL ("```").data md1 then md1.drop 3 else md1
  let md3 := if endsWithL ("```").data md2 then md2.take (md2.length - 3) else md2
  mdToBlocks (stripWs md3)

def afterAi (clean title url : Str) (ai : Option (Except Unit Str)) :
    Except Str (List Block) :=
  match ai with
  | some (Except.ok resp) =>
    if aiStructure resp ≠ [] then Except.ok (aiStructure resp)
    else Except.ok (manualStructure clean title url)
  | some (Except.error _) => Except.ok (manualStructure clean title url)
  | none => Except.ok (manualStructure clean title url)

def parseAndFormat (raw title url : Str) (ai : Option (Except Unit Str)) :
    Except Str (List Block) :=
  match extractEducational raw with
  | Except.error e => Except.error e
  | Except.ok clean =>
    if clean = [] ∨ (stripWs clean).length < 100 then
      if clean ≠ [] ∧ 0 < (stripWs clean).length then afterAi clean title url ai
      else Except.ok (createErrorBlocks ("No educational content found on this page").data)
    else afterAi clean title url ai

end Synthra

namespace Synthra

/-! ### `NotionService` block formatting

`NotionService._convert_markdown_to_rich_text` is a second, simpler inline
formatter: four lazy patterns (`**(.*?)**`, `*(.*?)*`, `` `([^`]+)` ``,
`~~(.*?)~~`, the starred ones with *zero*-or-more content), no overlap
filtering, a stable sort by start, and a linear builder whose cursor is set
to each match's end unconditionally.  Its annotations dict always carries
bold/italic/strikethrough/underline/code flags and a `"default"` color. -/

structure NsMarks where
  bold : Bool
  italic : Bool
  strike : Bool
  underline : Bool
  code : Bool
  color : Str
deriving DecidableEq, Repr

structure NsPart where
  content : Str
  marks : Option NsMarks
deriving DecidableEq, Repr

/-- A paragraph block emitted by the `NotionService` splitters (always of
type `"paragraph"` with a `rich_text` array). -/
structure NsBlock where
  rich : List NsPart
deriving DecidableEq, Repr

def patBoldZ : Pat := ⟨"**".data, "**".data, notNL, false⟩
def patItalicZ : Pat := ⟨"*".data, "*".data, notNL, false⟩
def patCodeG : Pat := ⟨"`".data, "`".data, notBT, true⟩
def patStrikeZ : Pat := ⟨"~~".data, "~~".data, notNL, false⟩

def nsPats : List (Pat × Fmt) :=
  [(patBoldZ, Fmt.bold), (patItalicZ, Fmt.italic), (patCodeG, Fmt.code),
   (patStrikeZ, Fmt.strike)]

def nsGather (t : Str) : List Mtch :=
  sortByStart (nsPats.foldl (fun acc pf => acc ++ findIter pf.1 pf.2 t) [])

def nsMarks (f : Fmt) : NsMarks :=
  ⟨decide (f = Fmt.bold), decide (f = Fmt.italic), decide (f = Fmt.strike), false,
   decide (f = Fmt.code), ("default").data⟩

def nsBuild (t : Str) : List Mtch → Nat → List NsPart
  | [], cur =>
    if cur < t.length then
      let remaining := t.drop cur
      if remaining = [] then [] else [⟨remaining, none⟩]
    else []
  | m :: rest, cur =>
    (if cur < m.start then
      let before := (t.drop cur).take (m.start - cur)
      if before = [] then [] else [⟨before, none⟩]
    else []) ++
    [⟨m.content, some (nsMarks m.fmt)⟩] ++ nsBuild t rest m.stop

/-- `NotionService._convert_markdown_to_rich_text` -/
def convertMdRichText (t : Str) : List NsPart :=
  if t = [] then [⟨[], none⟩]
  else
    let parts := nsBuild t (nsGather t) 0
    if parts = [] then [⟨t, none⟩] else parts

/-! ### `NotionService._find_best_break_point` -/

def sliceEq (t : Str) (i : Nat) (s : Str) : Bool := startsWithL s (t.drop i)

/-- Descending index search: test `start`, `start-1`, …, `count` indices in
all (the Python `range(start, stop, -1)` loops). -/
def descFind (p : Nat → Bool) : Nat → Nat → Option Nat
  | 0, _ => none
  | k + 1, i => if p i then some i else descFind p k (i - 1)

/-- Match extent of `\n\s*[-•*]\s+|\n\s*\d+\.\s+` at one position (the greedy
`\s*`/`\d+` runs are maximal and admit no useful backtracking because the
following required character is never in the run's class). -/
def listMarkerHere (rem : Str) : Option Nat :=
  match rem with
  | '\n' :: r =>
    let ws := r.takeWhile pyWs
    let r2 := r.drop ws.length
    (match r2 with
     | c :: r3 =>
       if c = '-' || c = '•' || c = '*' then
         let ws2 := r3.takeWhile pyWs
         if ws2 ≠ [] then some (2 + ws.length + ws2.length) else none
       else
         let ds := r2.takeWhile isDigitB
         if ds ≠ [] then
           match r2.drop ds.length with
           | '.' :: r4 =>
             let ws3 := r4.takeWhile pyWs
             if ws3 ≠ [] then some (2 + ws.length + ds.length + ws3.length) else none
           | _ => none
         else none
     | [] => none)
  | _ => none

def listMarkerStarts : Nat → Str → Nat → List Nat
  | 0, _, _ => []
  | fuel + 1, rem, pos =>
    match listMarkerHere rem with
    | some total => pos :: listMarkerStarts fuel (rem.drop total) (pos + total)
    | none =>
      match rem with
      | [] => []
      | _ :: r => listMarkerStarts fuel r (pos + 1)

/-- `NotionService._find_best_break_point` (`none` for the Python `-1`).
`int(max_pos * 0.5)` is `max_pos / 2`; `int(max_pos * 0.7)` is written
`7 * max_pos / 10`, which agrees with the float expression at the only
reachable length (2000, where both give 1400). -/
def findBreakPoint (t : Str) : Option Nat :=
  match descFind (fun i => sliceEq t i ("\n\n").data) (t.length - 1 - t.length / 2)
      (t.length - 2) with
  | some i => some (i + 2)
  | none =>
  match (listMarkerStarts (t.length + 1) t 0).find?
      (fun s => decide (t.length / 2 ≤ s) && decide (s ≤ t.length)) with
  | some s => some s
  | none =>
  match descFind
      (fun i => sliceEq t i (". ").data || sliceEq t i ("! ").data || sliceEq t i ("? ").data)
      (t.length - 1 - t.length / 2) (t.length - 2) with
  | some i => some (i + 2)
  | none =>
  match descFind (fun i => sliceEq t i (", ").data || sliceEq t i ("; ").data)
      (t.length - 1 - (7 * t.length / 10)) (t.length - 2) with
  | some i => some (i + 2)
  | none =>
  match descFind (fun i => sliceEq t i (" ").data) (t.length - t.length / 2)
      (t.length - 1) with
  | some i => some (i + 1)
  | none => none

/-! ### `NotionService._smart_split_content` -/

/-- The break point chosen for one loop iteration (`_find_best_break_point`,
falling back to the chunk's last space, then to 1999). -/
def smartBreak (chunk : Str) : Nat :=
  match findBreakPoint chunk with
  | some b => b
  | none =>
    match rfindChar ' ' chunk with
    | some r => r
    | none => 1999

/-- One iteration's new `remaining` value. -/
def smartNextRemaining (remaining : Str) : Str :=
  stripWs (remaining.drop (smartBreak (remaining.take 2000)))

def smartSplitGo : Nat → Str → List NsBlock
  | 0, _ => []
  | fuel + 1, remaining =>
    if remaining = [] then []
    else if remaining.length ≤ 2000 then [⟨convertMdRichText remaining⟩]
    else
      let bp := smartBreak (remaining.take 2000)
      let cc := stripWs (remaining.take bp)
      (if cc ≠ [] then [⟨convertMdRichText cc⟩] else []) ++
        smartSplitGo fuel (stripWs (remaining.drop bp))

/-- `NotionService._smart_split_content` (fuel-driven; by
`smart_split_progress` below each iteration strictly shrinks `remaining`, so
fuel `length + 1` is never exhausted). -/
def smartSplitContent (content : Str) : List NsBlock :=
  if content.length ≤ 2000 then [⟨convertMdRichText content⟩]
  else smartSplitGo (content.length + 1) content

/-! ### `NotionService._split_long_content` -/

def sentFold (optimal : Nat) (st : List Str × Str) (s : Str) : List Str × Str :=
  if (st.2 ++ (if st.2 ≠ [] then ['.', ' '] else []) ++ s).length ≤ optimal then
    (st.1, st.2 ++ (if st.2 ≠ [] then ['.', ' '] else []) ++ s)
  else ((if st.2 ≠ [] then st.1 ++ [st.2] else st.1), s)

def paraFold (optimal : Nat) (st : List Str × Str) (p : Str) : List Str × Str :=
  if (st.2 ++ (if st.2 ≠ [] then ['\n', '\n'] else []) ++ p).length ≤ optimal then
    (st.1, st.2 ++ (if st.2 ≠ [] then ['\n', '\n'] else []) ++ p)
  else
    if optimal < p.length then
      (splitPair '.' ' ' p).foldl (sentFold optimal)
        ((if st.2 ≠ [] then st.1 ++ [st.2] else st.1), [])
    else ((if st.2 ≠ [] then st.1 ++ [st.2] else st.1), p)

def mergeFold (maxBlocks : Nat) (st : List Str × Str) (chunk : Str) : List Str × Str :=
  if (st.2 ++ (if st.2 ≠ [] then ['\n', '\n'] else []) ++ chunk).length ≤ 1900 ∧
      st.1.length < maxBlocks - 1 then
    (st.1, st.2 ++ (if st.2 ≠ [] then ['\n', '\n'] else []) ++ chunk)
  else ((if st.2 ≠ [] then st.1 ++ [st.2] else st.1), chunk)

def flushState (st : List Str × Str) : List Str :=
  if st.2 ≠ [] then st.1 ++ [st.2] else st.1

/-- The candidate chunk sequence of `_split_long_content`: paragraph-level
greedy packing (with sentence-level splitting of oversized paragraphs), then
the merge pass when the block budget is exceeded. -/
def splitChunks (content : Str) (maxLength maxBlocks : Nat) : List Str :=
  if maxBlocks <
      (flushState ((splitPair '\n' '\n' content).foldl
        (paraFold (min (max (content.length / maxBlocks) maxLength) maxLength)) ([], []))).length
  then
    flushState ((flushState ((splitPair '\n' '\n' content).foldl
      (paraFold (min (max (content.length / maxBlocks) maxLength) maxLength)) ([], []))).foldl
        (mergeFold maxBlocks) ([], []))
  else
    flushState ((splitPair '\n' '\n' content).foldl
      (paraFold (min (max (content.length / maxBlocks) maxLength) maxLength)) ([], []))

/-- The final per-chunk safety check of `_split_long_content` (truncation to
1997 characters plus an ellipsis for any chunk still over 2000). -/
def finalizeChunk (ch : Str) : NsBlock :=
  if 2000 < ch.length then ⟨[⟨ch.take 1997 ++ ("...").data, none⟩]⟩
  else ⟨[⟨ch, none⟩]⟩

/-- `NotionService._split_long_content` -/
def splitLongContent (content : Str) (maxLength maxBlocks : Nat) : List NsBlock :=
  if content.length ≤ maxLength then [⟨[⟨content, none⟩]⟩]
  else (splitChunks content maxLength maxBlocks).map finalizeChunk

/-! ### Auxiliary definitions used by the theorems -/

/-- All rich-text content fields of a block (rich-text part contents, code
text, equation expression, image caption, table cell part contents) — the
fields the Notion API bounds at 2000 characters. -/
def blockFields : Block → List Str
  | Block.heading _ r => r.map (fun p => p.content)
  | Block.paragraph r => r.map (fun p => p.content)
  | Block.bullet r => r.map (fun p => p.content)
  | Block.numbered r => r.map (fun p => p.content)
  | Block.codeB _ c => [c]
  | Block.equationB e => [e]
  | Block.image _ cap =>
    (match cap with
     | some c => [c]
     | none => [])
  | Block.tableB _ rows =>
    rows.foldr (fun row acc =>
      row.foldr (fun cell a => cell.map (fun p => p.content) ++ a) acc) []

/-- Every newline is followed by a non-whitespace character (or ends the
string): the shape of `_extract_educational_content` output, under which the
newline-collapse regex never fires and `'\n\n'` never occurs. -/
def nlOk : Str → Bool
  | [] => true
  | c :: rest =>
    (if c = '\n' then
      match rest with
      | c2 :: _ => !pyWs c2
      | [] => true
    else true) && nlOk rest

/-- 102 paragraphs of 1000 characters separated by blank lines: the merge
stage of `_split_long_content` cannot pack any two of them into 1900
characters, so 102 blocks survive. -/
def c4input : Str := joinWith ['\n', '\n'] (List.replicate 102 (List.replicate 1000 'a'))

/-- Raw content whose extraction yields four kept 30-character lines
(≥ 100 characters of clean content, so the AI path is taken). -/
def c2raw : Str := joinWith ['\n'] (List.replicate 4 (List.replicate 30 'q'))

/-- An AI response of 101 heading lines. -/
def c2md : Str := joinWith ['\n'] (List.replicate 101 ("# q").data)

end Synthra

namespace Synthra

/-! ### Lemmas about match collection and part building -/

theorem scanPat_succ (p : Pat) (f : Fmt) (n : Nat) (rem : Str) (pos : Nat) :
    scanPat p f (n + 1) rem pos =
      match tryHere p rem with
      | some (k, total) =>
        { start := pos, stop := pos + total,
          content := (rem.drop p.opn.length).take k, fmt := f }
          :: scanPat p f n (rem.drop total) (pos + total)
      | none =>
        match rem with
        | [] => []
        | _ :: rest => scanPat p f n rest (pos + 1) := rfl

theorem scanPat_content_le (p : Pat) (f : Fmt) :
    ∀ (fuel : Nat) (rem : Str) (pos : Nat) (m : Mtch),
      m ∈ scanPat p f fuel rem pos → m.content.length ≤ rem.length := by
  intro fuel
  induction fuel with
  | zero => intro rem pos m h; simp [scanPat] at h
  | succ n ih =>
    intro rem pos m h
    rw [scanPat_succ] at h
    cases htry : tryHere p rem with
    | some kt =>
      rw [htry] at h
      obtain ⟨k, total⟩ := kt
      rcases List.mem_cons.mp h with h1 | h2
      · subst h1
        simp only
        calc ((rem.drop p.opn.length).take k).length ≤ (rem.drop p.opn.length).length :=
              (List.length_take _ _).le.trans (by simp)
          _ ≤ rem.length := by simp
      · exact (ih _ _ _ h2).trans (by simp)
    | none =>
      rw [htry] at h
      cases rem with
      | nil => simp at h
      | cons c rest => exact (ih _ _ _ h).trans (by simp)

theorem findIter_content_le (p : Pat) (f : Fmt) (t : Str) (m : Mtch)
    (h : m ∈ findIter p f t) : m.content.length ≤ t.length :=
  scanPat_content_le p f _ t 0 m h

theorem mem_insByStart {x m : Mtch} {l : List Mtch} (h : x ∈ insByStart m l) :
    x = m ∨ x ∈ l := by
  induction l with
  | nil => simpa [insByStart] using h
  | cons a as ih =>
    rw [insByStart] at h
    split at h
    · rcases List.mem_cons.mp h with h1 | h2
      · exact Or.inr (h1 ▸ List.mem_cons_self a as)
      · rcases ih h2 with h3 | h4
        · exact Or.inl h3
        · exact Or.inr (List.mem_cons_of_mem a h4)
    · rcases List.mem_cons.mp h with h1 | h2
      · exact Or.inl h1
      · exact Or.inr h2

theorem mem_sortByStart {x : Mtch} {l : List Mtch} (h : x ∈ sortByStart l) : x ∈ l := by
  suffices H : ∀ (l : List Mtch) (acc : List Mtch) (x : Mtch),
      x ∈ l.foldl (fun acc m => insByStart m acc) acc → x ∈ acc ∨ x ∈ l by
    rcases H l [] x h with h1 | h2
    · simp at h1
    · exact h2
  intro l
  induction l with
  | nil => intro acc x h; exact Or.inl h
  | cons a as ih =>
    intro acc x h
    rcases ih _ _ h with h1 | h2
    · rcases mem_insByStart h1 with h3 | h4
      · exact Or.inr (h3 ▸ List.mem_cons_self a as)
      · exact Or.inl h4
    · exact Or.inr (List.mem_cons_of_mem a h2)

theorem mem_addNonOverlapping {x : Mtch} {acc ms : List Mtch}
    (h : x ∈ addNonOverlapping acc ms) : x ∈ acc ∨ x ∈ ms := by
  unfold addNonOverlapping at h
  induction ms generalizing acc with
  | nil => exact Or.inl (by simpa using h)
  | cons m rest ih =>
    simp only [List.foldl_cons] at h
    rcases @ih (if overlapsAny acc m then acc else acc ++ [m]) h with h1 | h2
    · split at h1
      · exact Or.inl h1
      · rcases List.mem_append.mp h1 with h3 | h4
        · exact Or.inl h3
        · simp only [List.mem_singleton] at h4
          exact Or.inr (h4 ▸ List.mem_cons_self m rest)
    · exact Or.inr (List.mem_cons_of_mem m h2)

theorem mem_gatherMatches {t : Str} {m : Mtch} (h : m ∈ gatherMatches t) :
    m.content.length ≤ t.length := by
  unfold gatherMatches at h
  have h1 := mem_sortByStart h
  have H : ∀ (pats : List (Pat × Fmt)) (acc : List Mtch),
      (∀ x ∈ acc, x.content.length ≤ t.length) →
      ∀ x ∈ pats.foldl (fun acc pf => addNonOverlapping acc (findIter pf.1 pf.2 t)) acc,
        x.content.length ≤ t.length := by
    intro pats
    induction pats with
    | nil => intro acc hacc x hx; exact hacc x hx
    | cons pf rest ih =>
      intro acc hacc x hx
      refine ih _ ?_ x hx
      intro y hy
      rcases mem_addNonOverlapping hy with h2 | h3
      · exact hacc y h2
      · exact findIter_content_le _ _ _ _ h3
  exact H cleanPats [] (by simp) m h1

theorem innerSplitGo_content_le (f : Fmt) (content : Str) :
    ∀ (es : List Mtch) (ipos : Nat) (p : RTPart),
      (∀ e ∈ es, e.content.length ≤ content.length) →
      p ∈ innerSplitGo f content es ipos → p.content.length ≤ content.length := by
  intro es
  induction es with
  | nil =>
    intro ipos p _ hp
    rw [innerSplitGo] at hp
    split at hp
    · split at hp
      · simp at hp
      · simp at hp
        rw [hp]
        simp
    · simp at hp
  | cons e rest ih =>
    intro ipos p hes hp
    rw [innerSplitGo] at hp
    rcases List.mem_append.mp hp with h1 | h2
    · rcases List.mem_append.mp h1 with h3 | h4
      · split at h3
        · split at h3
          · simp at h3
          · simp at h3
            rw [h3]
            simp only
            calc ((content.drop ipos).take (e.start - ipos)).length
                ≤ (content.drop ipos).length := (List.length_take _ _).le.trans (by simp)
              _ ≤ content.length := by simp
        · simp at h3
      · simp at h4
        rw [h4]
        exact hes e (List.mem_cons_self e rest)
    · exact ih _ p (fun x hx => hes x (List.mem_cons_of_mem e hx)) h2

theorem innerSplit_content_le (f : Fmt) (content : Str) (p : RTPart)
    (hp : p ∈ innerSplit f content) : p.content.length ≤ content.length := by
  unfold innerSplit at hp
  split at hp
  · simp at hp
    rw [hp]
  · exact innerSplitGo_content_le f content _ 0 p
      (fun e he => findIter_content_le _ _ _ _ he) hp

theorem buildParts_content_le (t : Str) :
    ∀ (ms : List Mtch) (cur : Nat) (p : RTPart),
      (∀ m ∈ ms, m.content.length ≤ t.length) →
      p ∈ buildParts t ms cur → p.content.length ≤ t.length := by
  intro ms
  induction ms with
  | nil =>
    intro cur p _ hp
    rw [buildParts] at hp
    split at hp
    · split at hp
      · simp at hp
      · simp at hp
        rw [hp]
        simp
    · simp at hp
  | cons m rest ih =>
    intro cur p hms hp
    rw [buildParts] at hp
    split at hp
    · exact ih cur p (fun x hx => hms x (List.mem_cons_of_mem m hx)) hp
    · rcases List.mem_append.mp hp with h1 | h2
      · rcases List.mem_append.mp h1 with h3 | h4
        · split at h3
          · split at h3
            · simp at h3
            · simp at h3
              rw [h3]
              simp only
              calc ((t.drop cur).take (m.start - cur)).length
                  ≤ (t.drop cur).length := (List.length_take _ _).le.trans (by simp)
                _ ≤ t.length := by simp
          · simp at h3
        · have hm := hms m (List.mem_cons_self m rest)
          split at h4
          · simp at h4
            rw [h4]
            exact hm
          · exact (innerSplit_content_le _ _ p h4).trans hm
          · exact (innerSplit_content_le _ _ p h4).trans hm
          · simp at h4
            rw [h4]
            exact hm
      · exact ih _ p (fun x hx => hms x (List.mem_cons_of_mem m hx)) h2

theorem inlineFormat_content_le (t : Str) (p : RTPart) (hp : p ∈ inlineFormat t) :
    p.content.length ≤ t.length := by
  unfold inlineFormat at hp
  split at hp
  · simp at hp
    rw [hp]
  · exact buildParts_content_le t _ 0 p (fun m hm => mem_gatherMatches hm) hp

theorem chunksGo_content_le :
    ∀ (fuel : Nat) (l : Str) (p : RTPart), p ∈ chunksGo fuel l → p.content.length ≤ 1900 := by
  intro fuel
  induction fuel with
  | zero => intro l p hp; simp [chunksGo] at hp
  | succ n ih =>
    intro l p hp
    cases l with
    | nil => simp [chunksGo] at hp
    | cons c rest =>
      rw [chunksGo] at hp
      rcases List.mem_append.mp hp with h1 | h2
      · exact (inlineFormat_content_le _ p h1).trans ((List.length_take _ _).le.trans (by simp))
      · exact ih _ p h2

theorem createRichText_content_le (t : Str) (p : RTPart) (hp : p ∈ createRichText t) :
    p.content.length ≤ 2000 := by
  unfold createRichText at hp
  split at hp
  · exact (inlineFormat_content_le t p hp).trans (by assumption)
  · exact (chunksGo_content_le _ t p (List.mem_of_mem_take hp)).trans (by norm_num)

theorem innerSplitGo_eq_marks (f : Fmt) (content : Str) :
    ∀ (es : List Mtch) (ipos : Nat) (p : RTPart),
      p ∈ innerSplitGo f content es ipos → p.kind = RTKind.equation → p.marks = none := by
  intro es
  induction es with
  | nil =>
    intro ipos p hp _
    rw [innerSplitGo] at hp
    split at hp
    · split at hp
      · simp at hp
      · simp at hp
        simp_all
    · simp at hp
  | cons e rest ih =>
    intro ipos p hp hk
    rw [innerSplitGo] at hp
    rcases List.mem_append.mp hp with h1 | h2
    · rcases List.mem_append.mp h1 with h3 | h4
      · split at h3
        · split at h3
          · simp at h3
          · simp at h3
            simp_all
        · simp at h3
      · simp at h4
        rw [h4]
    · exact ih _ p h2 hk

theorem innerSplit_eq_marks (f : Fmt) (content : Str) (p : RTPart)
    (hp : p ∈ innerSplit f content) (hk : p.kind = RTKind.equation) : p.marks = none := by
  unfold innerSplit at hp
  split at hp
  · simp at hp
    simp_all
  · exact innerSplitGo_eq_marks f content _ 0 p hp hk

theorem buildParts_eq_marks (t : Str) :
    ∀ (ms : List Mtch) (cur : Nat) (p : RTPart),
      p ∈ buildParts t ms cur → p.kind = RTKind.equation → p.marks = none := by
  intro ms
  induction ms with
  | nil =>
    intro cur p hp _
    rw [buildParts] at hp
    split at hp
    · split at hp
      · simp at hp
      · simp at hp
        simp_all
    · simp at hp
  | cons m rest ih =>
    intro cur p hp hk
    rw [buildParts] at hp
    split at hp
    · exact ih cur p hp hk
    · rcases List.mem_append.mp hp with h1 | h2
      · rcases List.mem_append.mp h1 with h3 | h4
        · split at h3
          · split at h3
            · simp at h3
            · simp at h3
              simp_all
          · simp at h3
        · split at h4
          · simp at h4
            rw [h4]
          · exact innerSplit_eq_marks _ _ p h4 hk
          · exact innerSplit_eq_marks _ _ p h4 hk
          · simp at h4
            simp_all
      · exact ih _ p h2 hk

theorem inlineFormat_eq_marks (t : Str) (p : RTPart) (hp : p ∈ inlineFormat t)
    (hk : p.kind = RTKind.equation) : p.marks = none := by
  unfold inlineFormat at hp
  split at hp
  · simp at hp
    simp_all
  · exact buildParts_eq_marks t _ 0 p hp hk

/-! ### Claim theorems (concrete evaluations) -/

/-- C3: inline-formatting `**speed is $$v = d/t$$ always**` yields exactly
bold "speed is ", equation "v = d/t", bold " always"; and for every input,
no span of kind Equation carries a bold, italic, or code annotations dict. -/
theorem C3_equation_inside_bold :
    inlineFormat ("**speed is $$v = d/t$$ always**").data =
      [⟨RTKind.text, ("speed is ").data, some ⟨true, false, false⟩⟩,
       ⟨RTKind.equation, ("v = d/t").data, none⟩,
       ⟨RTKind.text, (" always").data, some ⟨true, false, false⟩⟩] ∧
    ∀ (t : Str) (p : RTPart), p ∈ inlineFormat t → p.kind = RTKind.equation →
      p.marks = none :=
  ⟨by decide, fun t p hp hk => inlineFormat_eq_marks t p hp hk⟩

/-- Witness for `C3_equation_inside_bold` at the concrete input `$$x$$`. -/
theorem C3_witness :
    (⟨RTKind.equation, ("x").data, none⟩ : RTPart) ∈ inlineFormat ("$$x$$").data ∧
    (⟨RTKind.equation, ("x").data, none⟩ : RTPart).marks = none :=
  ⟨by decide, C3_equation_inside_bold.2 ("$$x$$").data _ (by decide) (by decide)⟩

/-- C8 counterexample: the inline formatter has no strikethrough pattern —
`~~x~~` comes back as a single plain-text span, not a strikethrough span. -/
theorem C8_counterexample :
    inlineFormat ("~~x~~").data = [⟨RTKind.text, ("~~x~~").data, none⟩] := by decide

/-- C8 amended: the formatter recognizes only equations, bold, italic and
inline code, in that precedence order; `~~...~~` is left as plain text (here
after a recognized bold span). -/
theorem C8_amended_no_strikethrough :
    inlineFormat ("**b** ~~x~~").data =
      [⟨RTKind.text, ("b").data, some ⟨true, false, false⟩⟩,
       ⟨RTKind.text, (" ~~x~~").data, none⟩] := by decide

/-- C7 counterexample: the unterminated fence yields one javascript code
block, but its raw text keeps the trailing newline of the input (the final
empty split segment is collected into the code body), so it differs from the
claimed `function f(){}`. -/
theorem C7_counterexample :
    mdToBlocks ("```jsx\nfunction f()\x7b\x7d\n").data =
      [Block.codeB ("javascript").data ("function f()\x7b\x7d\n").data] ∧
    ("function f()\x7b\x7d\n").data ≠ ("function f()\x7b\x7d").data := by
  exact ⟨by decide, by decide⟩

/-- C7 amended: lexing `"```jsx\nfunction f(){}\n"` yields exactly one
CodeBlock with language "javascript" and raw text `"function f(){}\n"`. -/
theorem C7_amended_unterminated_fence :
    mdToBlocks ("```jsx\nfunction f()\x7b\x7d\n").data =
      [Block.codeB ("javascript").data ("function f()\x7b\x7d\n").data] := by decide

/-- C6 counterexample: a level-5 heading line is NOT coerced to a level-3
heading — only exactly four `#` are handled; `##### deep` falls through to
the paragraph branch. -/
theorem C6_counterexample :
    mdToBlocks ("##### deep").data =
      [Block.paragraph [⟨RTKind.text, ("##### deep").data, none⟩]] := by decide

/-- C9 counterexample: an image whose URL is not http(s)-prefixed is silently
dropped — the lexer emits no block at all, not a placeholder paragraph. -/
theorem C9_counterexample : mdToBlocks ("![a](file:///tmp/x)").data = [] := by decide

/-- C5 counterexample: for empty raw content the assemble operation returns
three error blocks (heading + two paragraphs), not the claimed two-block
pair. -/
theorem C5_counterexample :
    (parseAndFormat [] ("Intro").data ("http://example.com").data none).map
      List.length = Except.ok 3 := by decide

/-- C5 amended: for title "Intro", url "http://example.com", empty raw
content, the assemble operation returns exactly the fixed three-block error
sequence (error heading, explanatory paragraph, guidance paragraph) — never
an empty list. -/
theorem C5_amended_error_triple :
    parseAndFormat [] ("Intro").data ("http://example.com").data none =
      Except.ok
        [createHeading ("⚠️ Content Extraction Error").data 1,
         createParagraph ("No educational content found on this page").data,
         createParagraph
           ("Try opening the page directly or check if it contains educational content.").data] := by
  decide

/-- C1 counterexample: the blocked-page detector inside
`_extract_educational_content` raises `ValueError` (modelled as
`Except.error`), and `parse_and_format_for_notion` does not catch it — the
exception escapes the assemble operation instead of a degraded block list. -/
theorem C1_counterexample :
    parseAndFormat ("access blocked").data [] [] none =
      Except.error
        ("Website blocked access - possible bot detection. Try again later or use a different method.").data := by
  decide

/-- C2 counterexample: with the AI collaborator returning 101 heading lines,
the assemble operation returns 101 top-level blocks — the ≤ 100 budget is not
enforced by `parse_and_format_for_notion`. -/
theorem C2_counterexample :
    (parseAndFormat c2raw ("t").data ("u").data (some (Except.ok c2md))).map
      List.length = Except.ok 101 := by decide

/-! ### Lemmas for the smart-split progress property -/

theorem lstripWs_length_le (l : Str) : (lstripWs l).length ≤ l.length :=
  (List.dropWhile_suffix pyWs).length_le

theorem rstripWs_length_le (l : Str) : (rstripWs l).length ≤ l.length := by
  unfold rstripWs
  calc ((l.reverse.dropWhile pyWs).reverse).length = (l.reverse.dropWhile pyWs).length := by
        simp
    _ ≤ l.reverse.length := (List.dropWhile_suffix pyWs).length_le
    _ = l.length := by simp

theorem stripWs_length_le (l : Str) : (stripWs l).length ≤ l.length :=
  (rstripWs_length_le _).trans (lstripWs_length_le l)

theorem stripWs_length_lt_of_ws_head {c : Char} {rest : Str} (hc : pyWs c = true) :
    (stripWs (c :: rest)).length < (c :: rest).length := by
  unfold stripWs
  calc (rstripWs (lstripWs (c :: rest))).length ≤ (lstripWs (c :: rest)).length :=
        rstripWs_length_le _
    _ = (lstripWs rest).length := by simp [lstripWs, List.dropWhile_cons, hc]
    _ ≤ rest.length := lstripWs_length_le rest
    _ < (c :: rest).length := by simp

theorem rfindCharAux_ge (c : Char) :
    ∀ (l : Str) (i j : Nat), rfindCharAux c l i = some j → i ≤ j := by
  intro l
  induction l with
  | nil => intro i j h; simp [rfindCharAux] at h
  | cons x xs ih =>
    intro i j h
    rw [rfindCharAux] at h
    cases haux : rfindCharAux c xs (i + 1) with
    | some k =>
      rw [haux] at h
      simp at h
      have := ih (i + 1) k haux
      omega
    | none =>
      rw [haux] at h
      by_cases hxc : x = c
      · simp [hxc] at h
        exact Nat.le_of_eq h
      · simp [hxc] at h

theorem rfindChar_zero {c : Char} {l : Str} (h : rfindChar c l = some 0) :
    ∃ rest, l = c :: rest := by
  unfold rfindChar at h
  cases l with
  | nil => simp [rfindCharAux] at h
  | cons x xs =>
    rw [rfindCharAux] at h
    cases haux : rfindCharAux c xs 1 with
    | some k =>
      rw [haux] at h
      simp at h
      have := rfindCharAux_ge c xs 1 k haux
      omega
    | none =>
      rw [haux] at h
      by_cases hxc : x = c
      · exact ⟨xs, by rw [hxc]⟩
      · simp [hxc] at h

theorem findBreakPoint_pos {t : Str} {b : Nat} (hlen : t.length = 2000)
    (h : findBreakPoint t = some b) : 1 ≤ b := by
  unfold findBreakPoint at h
  rw [hlen] at h
  cases h1 : descFind (fun i => sliceEq t i ("\n\n").data) (2000 - 1 - 2000 / 2) (2000 - 2) with
  | some i => rw [h1] at h; simp at h; omega
  | none =>
  rw [h1] at h
  cases h2 : (listMarkerStarts (2000 + 1) t 0).find?
      (fun s => decide (2000 / 2 ≤ s) && decide (s ≤ 2000)) with
  | some s =>
    rw [h2] at h
    simp only [Option.some.injEq] at h
    have := List.find?_some h2
    simp at this
    omega
  | none =>
  rw [h2] at h
  cases h3 : descFind
      (fun i => sliceEq t i (". ").data || sliceEq t i ("! ").data || sliceEq t i ("? ").data)
      (2000 - 1 - 2000 / 2) (2000 - 2) with
  | some i => rw [h3] at h; simp at h; omega
  | none =>
  rw [h3] at h
  cases h4 : descFind (fun i => sliceEq t i (", ").data || sliceEq t i ("; ").data)
      (2000 - 1 - 7 * 2000 / 10) (2000 - 2) with
  | some i => rw [h4] at h; simp at h; omega
  | none =>
  rw [h4] at h
  cases h5 : descFind (fun i => sliceEq t i (" ").data) (2000 - 2000 / 2) (2000 - 1) with
  | some i => rw [h5] at h; simp at h; omega
  | none => rw [h5] at h; simp at h

/-- C10: the chunking loop of `_smart_split_content` makes strict progress on
every iteration with more than 2000 characters remaining — every break point
returned by `_find_best_break_point` is ≥ 1, and in the fallback cases either
the last-space index is ≥ 1, or it is 0 with a leading space that the final
`strip()` removes, or the emergency cut 1999 applies — so the remaining text
strictly shrinks and the fuel-driven loop is total. -/
theorem C10_smart_split_progress (r : Str) (h : 2000 < r.length) :
    (smartNextRemaining r).length < r.length := by
  have hr0 : 0 < r.length := by omega
  have hchunk : (r.take 2000).length = 2000 := by
    rw [List.length_take]
    omega
  have bound : ∀ bp : Nat, 1 ≤ bp → (stripWs (r.drop bp)).length < r.length := by
    intro bp hbp
    calc (stripWs (r.drop bp)).length ≤ (r.drop bp).length := stripWs_length_le _
      _ = r.length - bp := by rw [List.length_drop]
      _ < r.length := by omega
  unfold smartNextRemaining smartBreak
  cases hfb : findBreakPoint (r.take 2000) with
  | some b => exact bound b (findBreakPoint_pos hchunk hfb)
  | none =>
    cases hrf : rfindChar ' ' (r.take 2000) with
    | some i =>
      cases i with
      | zero =>
        obtain ⟨rest, hrest⟩ := rfindChar_zero hrf
        have hhead : ∃ rr, r = ' ' :: rr := by
          cases hr : r with
          | nil => rw [hr] at hr0; simp at hr0
          | cons c cs =>
            rw [hr] at hrest
            rw [List.take_cons (by norm_num)] at hrest
            exact ⟨cs, by rw [List.cons.injEq] at hrest; rw [hrest.1]⟩
        obtain ⟨rr, hrr⟩ := hhead
        rw [hrr]
        simpa using @stripWs_length_lt_of_ws_head ' ' rr (by decide)
      | succ k => exact bound (k + 1) (by omega)
    | none => exact bound 1999 (by omega)

/-- Witness for `C10_smart_split_progress` at a concrete 2001-character
input. -/
theorem C10_witness :
    2000 < (List.replicate 2001 'a').length ∧
      (smartNextRemaining (List.replicate 2001 'a')).length <
        (List.replicate 2001 'a').length :=
  ⟨by simp, C10_smart_split_progress (List.replicate 2001 'a') (by simp)⟩

/-! ### Lemmas for the `_split_long_content` block-budget counterexample -/

theorem splitPair_of_not_mem {a b : Char} :
    ∀ (l : Str), a ∉ l → splitPair a b l = [l] := by
  intro l
  induction l with
  | nil => intro; rw [splitPair]
  | cons c cs ih =>
    intro hmem
    cases cs with
    | nil => rw [splitPair]
    | cons d rest =>
      rw [splitPair, if_neg (fun hc => hmem (by rw [hc.1]; exact List.mem_cons_self a _)),
        ih (fun hd => hmem (List.mem_cons_of_mem c hd))]
      rfl

theorem splitPair_part {a b : Char} :
    ∀ (p z : Str), a ∉ p → splitPair a b (p ++ a :: b :: z) = p :: splitPair a b z := by
  intro p
  induction p with
  | nil => intro z _; rw [List.nil_append, splitPair, if_pos ⟨rfl, rfl⟩]
  | cons c cs ih =>
    intro z hmem
    have hne : ∀ d : Char, ¬(c = a ∧ d = b) :=
      fun d hc => hmem (by rw [hc.1]; exact List.mem_cons_self a cs)
    have h2 : a ∉ cs := fun hd => hmem (List.mem_cons_of_mem c hd)
    cases cs with
    | nil =>
      rw [List.cons_append, List.nil_append, splitPair, if_neg (hne a),
        splitPair, if_pos ⟨rfl, rfl⟩]
      rfl
    | cons d ds =>
      rw [List.cons_append, List.cons_append, splitPair, if_neg (hne d),
        ← List.cons_append, ih z h2]
      rfl

theorem joinWith_two_cons (sep p q : Str) (rest : List Str) :
    joinWith sep (p :: q :: rest) = p ++ sep ++ joinWith sep (q :: rest) := by
  rw [joinWith]

theorem splitPair_join_replicate {a b : Char} (p : Str) (hmem : a ∉ p) :
    ∀ n, splitPair a b (joinWith [a, b] (List.replicate (n + 1) p)) =
      List.replicate (n + 1) p := by
  intro n
  induction n with
  | zero => rw [List.replicate_one, joinWith, splitPair_of_not_mem p hmem]
  | succ k ih =>
    rw [List.replicate_succ, List.replicate_succ, joinWith_two_cons, ← List.replicate_succ]
    have hform : p ++ [a, b] ++ joinWith [a, b] (List.replicate (k + 1) p) =
        p ++ a :: b :: joinWith [a, b] (List.replicate (k + 1) p) := by simp
    rw [hform, splitPair_part p _ hmem, ih, ← List.replicate_succ]

theorem joinWith_length_replicate (sep p : Str) :
    ∀ n, (joinWith sep (List.replicate (n + 1) p)).length =
      p.length + n * (sep.length + p.length) := by
  intro n
  induction n with
  | zero => rw [List.replicate_one, joinWith]; ring
  | succ k ih =>
    rw [List.replicate_succ, List.replicate_succ, joinWith_two_cons, ← List.replicate_succ]
    simp only [List.length_append, ih]
    ring

theorem paraFold_step_flush (p : Str) (hlen : p.length = 1000) (cs : List Str) :
    paraFold 2000 (cs, p) p = (cs ++ [p], p) := by
  have hne : p ≠ [] := by intro h; rw [h] at hlen; simp at hlen
  simp [paraFold, hlen, hne]

theorem paraFold_replicate_step (p : Str) (hlen : p.length = 1000) :
    ∀ (k : Nat) (cs : List Str),
      List.foldl (paraFold 2000) (cs, p) (List.replicate k p) =
        (cs ++ List.replicate k p, p) := by
  intro k
  induction k with
  | zero => intro cs; simp
  | succ n ih =>
    intro cs
    rw [List.replicate_succ, List.foldl_cons, paraFold_step_flush p hlen, ih]
    simp [List.replicate_succ]

theorem mergeFold_step_flush (p : Str) (hlen : p.length = 1000) (ms : List Str) :
    mergeFold 100 (ms, p) p = (ms ++ [p], p) := by
  have hne : p ≠ [] := by intro h; rw [h] at hlen; simp at hlen
  simp [mergeFold, hlen, hne]

theorem mergeFold_replicate_step (p : Str) (hlen : p.length = 1000) :
    ∀ (k : Nat) (ms : List Str),
      List.foldl (mergeFold 100) (ms, p) (List.replicate k p) =
        (ms ++ List.replicate k p, p) := by
  intro k
  induction k with
  | zero => intro ms; simp
  | succ n ih =>
    intro ms
    rw [List.replicate_succ, List.foldl_cons, mergeFold_step_flush p hlen, ih]
    simp [List.replicate_succ]

theorem c4input_length : c4input.length = 102202 := by
  unfold c4input
  rw [show (102 : Nat) = 101 + 1 from rfl,
    joinWith_length_replicate ['\n', '\n'] (List.replicate 1000 'a') 101]
  simp

theorem rep1000_ne_nil : List.replicate 1000 'a' ≠ ([] : Str) :=
  fun h => absurd (List.length_eq_zero.mpr h) (by rw [List.length_replicate]; norm_num)

theorem nl_not_mem_rep1000 : '\n' ∉ List.replicate 1000 'a' :=
  fun h => absurd (List.eq_of_mem_replicate h) (by decide)

theorem paraFold_start (optimal : Nat) (p : Str) (h : p.length ≤ optimal) :
    paraFold optimal ([], []) p = ([], p) := by
  unfold paraFold
  simp only [ne_eq, not_true_eq_false, if_false, List.nil_append, ite_false]
  rw [if_pos h]

theorem mergeFold_start (p : Str) (h : p.length ≤ 1900) :
    mergeFold 100 ([], []) p = ([], p) := by
  unfold mergeFold
  simp only [ne_eq, not_true_eq_false, if_false, List.nil_append, ite_false]
  rw [if_pos ⟨h, by norm_num⟩]

theorem flushState_rep (p : Str) (hp : p ≠ []) (k : Nat) :
    flushState (([] : List Str) ++ List.replicate k p, p) = List.replicate (k + 1) p := by
  unfold flushState
  rw [if_pos hp, List.nil_append, ← List.replicate_succ']

theorem c4_chunks :
    splitChunks c4input 2000 100 = List.replicate 102 (List.replicate 1000 'a') := by
  have hlen : (List.replicate 1000 'a').length = 1000 := List.length_replicate 1000 'a'
  have hle2000 : (List.replicate 1000 'a').length ≤ 2000 := by rw [hlen]; norm_num
  have hle1900 : (List.replicate 1000 'a').length ≤ 1900 := by rw [hlen]; norm_num
  have hopt : min (max (c4input.length / 100) 2000) 2000 = 2000 := by
    rw [c4input_length]
    norm_num
  have hsplit : splitPair '\n' '\n' c4input = List.replicate 102 (List.replicate 1000 'a') := by
    unfold c4input
    rw [show (102 : Nat) = 101 + 1 from rfl]
    exact splitPair_join_replicate (List.replicate 1000 'a') nl_not_mem_rep1000 101
  have hfold :
      flushState ((splitPair '\n' '\n' c4input).foldl
        (paraFold (min (max (c4input.length / 100) 2000) 2000)) ([], [])) =
        List.replicate 102 (List.replicate 1000 'a') := by
    rw [hopt, hsplit, show (102 : Nat) = 101 + 1 from rfl, List.replicate_succ,
      List.foldl_cons, paraFold_start 2000 (List.replicate 1000 'a') hle2000,
      paraFold_replicate_step (List.replicate 1000 'a') hlen 101 [],
      flushState_rep (List.replicate 1000 'a') rep1000_ne_nil 101, List.replicate_succ]
  have hmerge :
      flushState ((List.replicate 102 (List.replicate 1000 'a')).foldl
        (mergeFold 100) ([], [])) = List.replicate 102 (List.replicate 1000 'a') := by
    rw [show (102 : Nat) = 101 + 1 from rfl, List.replicate_succ, List.foldl_cons,
      mergeFold_start (List.replicate 1000 'a') hle1900,
      mergeFold_replicate_step (List.replicate 1000 'a') hlen 101 [],
      flushState_rep (List.replicate 1000 'a') rep1000_ne_nil 101, List.replicate_succ]
  unfold splitChunks
  rw [hfold, if_pos (by simp), hmerge]

/-- C4 counterexample: on 102 blank-line-separated paragraphs of 1000
characters each (102202 characters in total), `_split_long_content` with
`max_length=2000`, `max_blocks=100` returns 102 paragraph blocks — the merge
stage cannot pack any two 1000-character chunks within its 1900-character
budget, so the claimed ≤ 100-block bound fails. -/
theorem C4_counterexample : 100 < (splitLongContent c4input 2000 100).length := by
  unfold splitLongContent
  rw [if_neg (by rw [c4input_length]; omega), c4_chunks]
  simp

/-- C4 amended: for every input longer than 2000 characters,
`_split_long_content(text, 2000, 100)` returns paragraph blocks whose text
contents are all at most 2000 characters (the final safety truncation to
1997 + "..." guarantees this), but the block count is not bounded by
`max_blocks`: the merge stage only packs consecutive chunks whose combined
length stays within 1900 characters. -/
theorem C4_amended_field_bound (content : Str) (h : 2000 < content.length) :
    ∀ b ∈ splitLongContent content 2000 100, ∀ p ∈ b.rich, p.content.length ≤ 2000 := by
  intro b hb p hp
  unfold splitLongContent at hb
  rw [if_neg (by omega)] at hb
  obtain ⟨ch, _, hch⟩ := List.mem_map.mp hb
  unfold finalizeChunk at hch
  split at hch
  · rw [← hch] at hp
    simp only [List.mem_singleton] at hp
    rw [hp]
    simp only [List.length_append, List.length_take, List.length_cons, List.length_nil]
    omega
  · rw [← hch] at hp
    simp only [List.mem_singleton] at hp
    rw [hp]
    simp only
    omega

/-- Witness for `C4_amended_field_bound` at a concrete 2001-character
input. -/
theorem C4_witness :
    2000 < (List.replicate 2001 'a').length ∧
      ∀ b ∈ splitLongContent (List.replicate 2001 'a') 2000 100,
        ∀ p ∈ b.rich, p.content.length ≤ 2000 :=
  ⟨by simp, C4_amended_field_bound (List.replicate 2001 'a') (by simp)⟩

/-! ### Lemmas for the heading-coercion property -/

theorem splitChar_not_mem {sep : Char} :
    ∀ (l : Str), sep ∉ l → splitChar sep l = [l] := by
  intro l
  induction l with
  | nil => intro; rw [splitChar]
  | cons c cs ih =>
    intro hmem
    rw [splitChar, if_neg (fun hc => hmem (by rw [hc]; exact List.mem_cons_self sep cs)),
      ih (fun hd => hmem (List.mem_cons_of_mem c hd))]

theorem rstripWs_append {x y : Str} (hy : rstripWs y ≠ []) :
    rstripWs (x ++ y) = x ++ rstripWs y := by
  unfold rstripWs at *
  rw [List.reverse_append, List.dropWhile_append]
  have hne : (y.reverse.dropWhile pyWs).isEmpty = false := by
    cases hdw : y.reverse.dropWhile pyWs with
    | nil => rw [hdw] at hy; simp at hy
    | cons a as => rfl
  rw [hne]
  simp

/-- C6 amended: only a line with exactly four leading `#` followed by a space
is coerced — for every trailing-whitespace-free nonempty heading text `t`
with no newline, lexing `"#### " ++ t` yields exactly one level-3 heading
whose rich text is built from the stripped text.  (A five-or-more-`#` line is
NOT coerced: see the counterexample, where it becomes a paragraph.) -/
theorem C6_amended_h4_coerced (t : Str) (hnl : '\n' ∉ t) (hrs : rstripWs t = t)
    (hne : t ≠ []) :
    mdToBlocks (("#### ").data ++ t) = [createHeading (stripWs t) 3] := by
  have hsplit : splitChar '\n' (("#### ").data ++ t) = [("#### ").data ++ t] := by
    apply splitChar_not_mem
    intro hmem
    rcases List.mem_append.mp hmem with h1 | h2
    · simp at h1
    · exact hnl h2
  have hrst : rstripWs (("#### ").data ++ t) = ("#### ").data ++ t := by
    rw [rstripWs_append (by rw [hrs]; exact hne), hrs]
  unfold mdToBlocks
  rw [hsplit]
  simp only [List.length_cons, List.length_nil]
  rw [mdLoop, hrst]
  cases t with
  | nil => exact absurd rfl hne
  | cons c cs =>
    rw [if_neg (by simp)]
    have hlstr : lstripWs (("#### ").data ++ c :: cs) = ("#### ").data ++ c :: cs := rfl
    rw [hlstr]
    rw [if_neg (fun h => Bool.noConfusion h), if_neg (fun h => Bool.noConfusion h),
      if_neg (fun h => Bool.noConfusion h), if_neg (fun h => Bool.noConfusion h),
      if_pos (show startsWithL (("#### ").data) (("#### ").data ++ c :: cs) = true
        from rfl)]
    have hdw : (("#### ").data ++ c :: cs).dropWhile (fun x => decide (x = '#')) =
        ' ' :: c :: cs := rfl
    rw [hdw]
    have hstr : stripWs (' ' :: c :: cs) = stripWs (c :: cs) := by
      unfold stripWs
      rw [show lstripWs (' ' :: c :: cs) = lstripWs (c :: cs) from rfl]
    rw [hstr, mdLoop]

/-- Witness for `C6_amended_h4_coerced` at the concrete line `#### deep`. -/
theorem C6_witness :
    '\n' ∉ ("deep").data ∧ rstripWs ("deep").data = ("deep").data ∧ ("deep").data ≠ [] ∧
      mdToBlocks (("#### ").data ++ ("deep").data) = [createHeading (stripWs ("deep").data) 3] :=
  ⟨by decide, by decide, by decide,
    C6_amended_h4_coerced ("deep").data (by decide) (by decide) (by decide)⟩

/-! ### Lemmas for the invalid-image-URL property -/

theorem takeWhile_append_stop {p : Char → Bool} :
    ∀ (xs : Str), (∀ c ∈ xs, p c = true) → ∀ (y : Char) (z : Str), p y = false →
      ((xs ++ y :: z).takeWhile p) = xs := by
  intro xs
  induction xs with
  | nil => intro _ y z hy; simp [List.takeWhile, hy]
  | cons c cs ih =>
    intro hall y z hy
    rw [List.cons_append, List.takeWhile_cons, hall c (List.mem_cons_self c cs),
      ih (fun d hd => hall d (List.mem_cons_of_mem c hd)) y z hy]
    simp

theorem takeWhile_all {p : Char → Bool} :
    ∀ (xs : Str), (∀ c ∈ xs, p c = true) → xs.takeWhile p = xs := by
  intro xs
  induction xs with
  | nil => intro; rfl
  | cons c cs ih =>
    intro hall
    rw [List.takeWhile_cons, hall c (List.mem_cons_self c cs),
      ih (fun d hd => hall d (List.mem_cons_of_mem c hd))]
    simp

theorem containsSeq_append_of_right {s : Str} :
    ∀ (u v : Str), containsSeq s v = true → containsSeq s (u ++ v) = true := by
  intro u
  induction u with
  | nil => intro v hv; simpa using hv
  | cons c cs ih =>
    intro v hv
    rw [List.cons_append, containsSeq, Bool.or_eq_true]
    exact Or.inr (ih v hv)

theorem imgScan_nil : ∀ fuel, imgScan fuel [] = [] := by
  intro fuel
  cases fuel with
  | zero => rfl
  | succ n => rfl

theorem imgSub_nil : ∀ fuel, imgSub fuel [] = [] := by
  intro fuel
  cases fuel with
  | zero => rfl
  | succ n => rfl

theorem mdLoop_nil : ∀ fuel, mdLoop fuel [] = [] := by
  intro fuel
  cases fuel with
  | zero => rfl
  | succ n => rfl

theorem imgTryHere_exact {alt url : Str} (halt : ']' ∉ alt) (hurl : ')' ∉ url)
    (hne : url ≠ []) (z : Str) :
    imgTryHere ('!' :: '[' :: (alt ++ ']' :: '(' :: (url ++ ')' :: z))) =
      some (alt, url, alt.length + url.length + 5) := by
  rw [imgTryHere]
  have htw : (alt ++ ']' :: '(' :: (url ++ ')' :: z)).takeWhile (fun c => !(c = ']')) = alt := by
    apply takeWhile_append_stop
    · intro c hc
      simp only [Bool.not_eq_true']
      exact decide_eq_false (fun he => halt (he ▸ hc))
    · simp
  rw [htw, List.drop_left]
  have htw2 : (url ++ ')' :: z).takeWhile (fun c => !(c = ')')) = url := by
    apply takeWhile_append_stop
    · intro c hc
      simp only [Bool.not_eq_true']
      exact decide_eq_false (fun he => hurl (he ▸ hc))
    · simp
  simp only [htw2]
  rw [if_neg (by simpa using hne), List.drop_left]
  rfl

theorem imgScan_succ (n : Nat) (rem : Str) :
    imgScan (n + 1) rem =
      match imgTryHere rem with
      | some (alt, url, total) => (alt, url) :: imgScan n (rem.drop total)
      | none =>
        match rem with
        | [] => []
        | _ :: r => imgScan n r := rfl

theorem imgSub_succ (n : Nat) (rem : Str) :
    imgSub (n + 1) rem =
      match imgTryHere rem with
      | some (_, _, total) => imgSub n (rem.drop total)
      | none =>
        match rem with
        | [] => []
        | c :: r => c :: imgSub n r := rfl

/-- C9 amended: a markdown image reference whose URL is not
`http(s)`-prefixed is silently dropped by the lexer — the line produces no
block at all (no ImageBlock and no placeholder paragraph); placeholder
paragraphs arise only inside `_create_image_block`, which is reached only for
http(s)-prefixed URLs. -/
theorem C9_amended_non_http_dropped (alt url : Str)
    (halt1 : ']' ∉ alt) (halt2 : '\n' ∉ alt)
    (hu1 : ')' ∉ url) (hu2 : '"' ∉ url) (hu3 : '\n' ∉ url) (hu4 : url ≠ [])
    (hh1 : startsWithL ("http://").data (stripWs url) = false)
    (hh2 : startsWithL ("https://").data (stripWs url) = false) :
    mdToBlocks (("![").data ++ alt ++ ("](").data ++ url ++ (")").data) = [] := by
  have hL : ("![").data ++ alt ++ ("](").data ++ url ++ (")").data =
      '!' :: '[' :: (alt ++ ']' :: '(' :: (url ++ [')'])) := by simp
  rw [hL]
  have hnlL : '\n' ∉ '!' :: '[' :: (alt ++ ']' :: '(' :: (url ++ [')'])) := by
    intro h
    rcases List.mem_cons.mp h with h | h
    · exact absurd h (by decide)
    rcases List.mem_cons.mp h with h | h
    · exact absurd h (by decide)
    rcases List.mem_append.mp h with h | h
    · exact halt2 h
    rcases List.mem_cons.mp h with h | h
    · exact absurd h (by decide)
    rcases List.mem_cons.mp h with h | h
    · exact absurd h (by decide)
    rcases List.mem_append.mp h with h | h
    · exact hu3 h
    · exact absurd h (by decide)
  have hsplit : splitChar '\n' ('!' :: '[' :: (alt ++ ']' :: '(' :: (url ++ [')']))) =
      ['!' :: '[' :: (alt ++ ']' :: '(' :: (url ++ [')']))] :=
    splitChar_not_mem _ hnlL
  have hform : '!' :: '[' :: (alt ++ ']' :: '(' :: (url ++ [')'])) =
      ('!' :: '[' :: (alt ++ ']' :: '(' :: url)) ++ [')'] := by simp
  have hrstL : rstripWs ('!' :: '[' :: (alt ++ ']' :: '(' :: (url ++ [')']))) =
      '!' :: '[' :: (alt ++ ']' :: '(' :: (url ++ [')'])) := by
    rw [hform, rstripWs_append (by decide)]
    rfl
  have hlstrL : lstripWs ('!' :: '[' :: (alt ++ ']' :: '(' :: (url ++ [')']))) =
      '!' :: '[' :: (alt ++ ']' :: '(' :: (url ++ [')'])) := rfl
  have hstripL : stripWs ('!' :: '[' :: (alt ++ ']' :: '(' :: (url ++ [')']))) =
      '!' :: '[' :: (alt ++ ']' :: '(' :: (url ++ [')'])) := by
    unfold stripWs
    rw [hlstrL, hrstL]
  have htry : imgTryHere ('!' :: '[' :: (alt ++ ']' :: '(' :: (url ++ [')']))) =
      some (alt, url, alt.length + url.length + 5) := by
    have := imgTryHere_exact halt1 hu1 hu4 ([] : Str)
    simpa using this
  have hlenL : ('!' :: '[' :: (alt ++ ']' :: '(' :: (url ++ [')']))).length =
      alt.length + url.length + 5 := by
    simp
    omega
  have hdrop : ('!' :: '[' :: (alt ++ ']' :: '(' :: (url ++ [')']))).drop
      (alt.length + url.length + 5) = [] :=
    List.drop_eq_nil_of_le (by rw [hlenL])
  have hfa : imgFindAll ('!' :: '[' :: (alt ++ ']' :: '(' :: (url ++ [')']))) =
      [(alt, url)] := by
    unfold imgFindAll
    rw [hlenL, imgScan_succ, htry]
    simp only [hdrop, imgScan_nil]
  have hrm : imgRemove ('!' :: '[' :: (alt ++ ']' :: '(' :: (url ++ [')']))) = [] := by
    unfold imgRemove
    rw [hlenL, imgSub_succ, htry]
    simp only [hdrop, imgSub_nil]
  have hcond : (containsSeq ("![").data ('!' :: '[' :: (alt ++ ']' :: '(' :: (url ++ [')']))) &&
      containsSeq ("](").data ('!' :: '[' :: (alt ++ ']' :: '(' :: (url ++ [')']))) &&
      !(imgFindAll ('!' :: '[' :: (alt ++ ']' :: '(' :: (url ++ [')'])))).isEmpty) = true := by
    rw [hfa]
    have hc1 : containsSeq ("![").data ('!' :: '[' :: (alt ++ ']' :: '(' :: (url ++ [')']))) =
        true := rfl
    have hc2 : containsSeq ("](").data ('!' :: '[' :: (alt ++ ']' :: '(' :: (url ++ [')']))) =
        true := by
      have hsplit2 : '!' :: '[' :: (alt ++ ']' :: '(' :: (url ++ [')'])) =
          ('!' :: '[' :: alt) ++ (']' :: '(' :: (url ++ [')'])) := by simp
      rw [hsplit2]
      exact containsSeq_append_of_right _ _ rfl
    rw [hc1, hc2]
    rfl
  have htwq : url.takeWhile (fun c => !(c = '"')) = url := by
    apply takeWhile_all
    intro c hc
    simp only [Bool.not_eq_true']
    exact decide_eq_false (fun he => hu2 (he ▸ hc))
  unfold mdToBlocks
  rw [hsplit]
  simp only [List.length_cons, List.length_nil]
  rw [mdLoop, hrstL]
  rw [if_neg (by simp), hlstrL]
  rw [if_neg (fun h => Bool.noConfusion h), if_neg (fun h => Bool.noConfusion h),
    if_neg (fun h => Bool.noConfusion h), if_neg (fun h => Bool.noConfusion h),
    if_neg (fun h => Bool.noConfusion h)]
  rw [hstripL]
  rw [if_neg (fun h => Bool.noConfusion h)]
  rw [if_pos hcond, hfa, hrm]
  simp only [List.foldr_cons, List.foldr_nil, htwq]
  rw [if_neg (by rw [hh1, hh2]; simp)]
  simp [mdLoop_nil]
  rfl

/-! ### Lemmas about the shape of extraction output (isolated newlines) -/

theorem nlOk_cons (c : Char) (rest : Str) :
    nlOk (c :: rest) =
      ((if c = '\n' then
        match rest with
        | c2 :: _ => !pyWs c2
        | [] => true
      else true) && nlOk rest) := rfl

theorem nlOk_tail {c : Char} {rest : Str} (h : nlOk (c :: rest) = true) :
    nlOk rest = true := by
  rw [nlOk_cons, Bool.and_eq_true] at h
  exact h.2

theorem nlOk_of_not_mem : ∀ (l : Str), '\n' ∉ l → nlOk l = true := by
  intro l
  induction l with
  | nil => intro; rfl
  | cons c cs ih =>
    intro hmem
    rw [nlOk_cons, Bool.and_eq_true]
    constructor
    · rw [if_neg (fun hc => hmem (by rw [hc]; exact List.mem_cons_self _ _))]
    · exact ih (fun hd => hmem (List.mem_cons_of_mem c hd))

theorem nlOk_dropWhile {p : Char → Bool} : ∀ (l : Str), nlOk l = true →
    nlOk (l.dropWhile p) = true := by
  intro l
  induction l with
  | nil => intro; rfl
  | cons c cs ih =>
    intro h
    rw [List.dropWhile_cons]
    split
    · exact ih (nlOk_tail h)
    · exact h

theorem nlOk_append_left : ∀ (l1 l2 : Str), nlOk (l1 ++ l2) = true → nlOk l1 = true := by
  intro l1
  induction l1 with
  | nil => intro l2 _; rfl
  | cons c cs ih =>
    intro l2 h
    rw [List.cons_append, nlOk_cons, Bool.and_eq_true] at h
    rw [nlOk_cons, Bool.and_eq_true]
    refine ⟨?_, ih l2 h.2⟩
    rcases h with ⟨h1, _⟩
    split at h1
    · cases cs with
      | nil => rw [if_pos (by assumption)]
      | cons c2 cs2 => rw [if_pos (by assumption)]; exact h1
    · rw [if_neg (by assumption)]

theorem rstripWs_append_right (l : Str) :
    l = rstripWs l ++ (l.reverse.takeWhile pyWs).reverse := by
  unfold rstripWs
  rw [← List.reverse_append, List.takeWhile_append_dropWhile, List.reverse_reverse]

theorem nlOk_rstripWs {l : Str} (h : nlOk l = true) : nlOk (rstripWs l) = true := by
  have := rstripWs_append_right l
  rw [this] at h
  exact nlOk_append_left _ _ h

theorem nlOk_stripWs {l : Str} (h : nlOk l = true) : nlOk (stripWs l) = true :=
  nlOk_rstripWs (nlOk_dropWhile l h)

theorem collapseNl_nil : ∀ fuel, collapseNl fuel [] = [] := by
  intro fuel
  cases fuel with
  | zero => rfl
  | succ n => rfl

theorem collapseNl_id : ∀ (fuel : Nat) (l : Str), nlOk l = true →
    collapseNl (fuel + 1) l = l := by
  intro fuel
  induction fuel with
  | zero =>
    intro l h
    cases l with
    | nil => rfl
    | cons c cs =>
      rw [collapseNl]
      by_cases hc : c = '\n'
      · rw [if_pos hc]
        subst hc
        cases cs with
        | nil => rw [if_neg (by decide)]; rw [collapseNl]
        | cons c2 cs2 =>
          rw [nlOk_cons, Bool.and_eq_true, if_pos rfl] at h
          have h2 : pyWs c2 = false := by
            rcases h with ⟨h1, _⟩
            simpa using h1
          rw [if_neg]
          · rw [collapseNl]
          · rw [List.takeWhile_cons, if_pos (by decide), List.takeWhile_cons, h2]
            simp
      · rw [if_neg hc]
        rw [collapseNl]
  | succ n ih =>
    intro l h
    cases l with
    | nil => rfl
    | cons c cs =>
      rw [collapseNl]
      by_cases hc : c = '\n'
      · rw [if_pos hc]
        subst hc
        cases cs with
        | nil =>
          rw [if_neg (by decide)]
          rw [show collapseNl (n + 1) ([] : Str) = [] from collapseNl_nil (n + 1)]
        | cons c2 cs2 =>
          rw [nlOk_cons, Bool.and_eq_true, if_pos rfl] at h
          have h2 : pyWs c2 = false := by
            rcases h with ⟨h1, _⟩
            simpa using h1
          rw [if_neg]
          · rw [ih (c2 :: cs2) h.2]
          · rw [List.takeWhile_cons, if_pos (by decide), List.takeWhile_cons, h2]
            simp
      · rw [if_neg hc]
        rw [ih cs (nlOk_tail h)]

theorem splitPair_of_nlOk : ∀ (l : Str), nlOk l = true → splitPair '\n' '\n' l = [l] := by
  intro l
  induction l with
  | nil => intro; rfl
  | cons c cs ih =>
    intro h
    cases cs with
    | nil => rw [splitPair]
    | cons d rest =>
      rw [splitPair, if_neg, ih (nlOk_tail h)]
      · rfl
      · intro hcd
        rw [nlOk_cons, Bool.and_eq_true, if_pos hcd.1] at h
        rcases h with ⟨h1, _⟩
        rw [hcd.2] at h1
        simp [pyWs] at h1

theorem splitChar_sep_not_mem {sep : Char} :
    ∀ (l : Str) (p : Str), p ∈ splitChar sep l → sep ∉ p := by
  intro l
  induction l with
  | nil =>
    intro p hp
    rw [splitChar] at hp
    simp at hp
    rw [hp]
    simp
  | cons c cs ih =>
    intro p hp
    rw [splitChar] at hp
    split at hp
    · rcases List.mem_cons.mp hp with h1 | h2
      · rw [h1]; simp
      · exact ih p h2
    · cases hsc : splitChar sep cs with
      | nil =>
        rw [hsc] at hp
        simp at hp
        rw [hp]
        intro hm
        rcases List.mem_singleton.mp hm with h
        exact (by assumption : ¬c = sep) h.symm
      | cons ph pt =>
        rw [hsc] at hp
        rcases List.mem_cons.mp hp with h1 | h2
        · rw [h1]
          intro hm
          rcases List.mem_cons.mp hm with h3 | h4
          · exact (by assumption : ¬c = sep) h3.symm
          · exact ih ph (hsc ▸ List.mem_cons_self ph pt) h4
        · exact ih p (hsc ▸ List.mem_cons_of_mem ph h2)

theorem lstripWs_head : ∀ (l : Str), lstripWs l = [] ∨
    ∃ c cs, lstripWs l = c :: cs ∧ pyWs c = false := by
  intro l
  induction l with
  | nil => exact Or.inl rfl
  | cons c cs ih =>
    unfold lstripWs at *
    rw [List.dropWhile_cons]
    split
    · exact ih
    · exact Or.inr ⟨c, cs, rfl, by simp_all⟩

theorem stripWs_head : ∀ (l : Str), stripWs l = [] ∨
    ∃ c cs, stripWs l = c :: cs ∧ pyWs c = false := by
  intro l
  unfold stripWs
  rcases lstripWs_head l with h | ⟨c, cs, hl, hws⟩
  · rw [h]
    exact Or.inl rfl
  · cases hr : rstripWs (lstripWs l) with
    | nil => exact Or.inl rfl
    | cons d ds =>
      refine Or.inr ⟨d, ds, rfl, ?_⟩
      have := rstripWs_append_right (lstripWs l)
      rw [hr, hl] at this
      rw [List.cons_append] at this
      rw [List.cons.injEq] at this
      rw [← this.1]
      exact hws

theorem mem_lstripWs {c : Char} {l : Str} (h : c ∈ lstripWs l) : c ∈ l := by
  have hsplit : l.takeWhile pyWs ++ l.dropWhile pyWs = l :=
    List.takeWhile_append_dropWhile pyWs l
  rw [← hsplit]
  exact List.mem_append.mpr (Or.inr h)

theorem mem_rstripWs {c : Char} {l : Str} (h : c ∈ rstripWs l) : c ∈ l := by
  have := rstripWs_append_right l
  rw [this]
  exact List.mem_append.mpr (Or.inl h)

theorem mem_stripWs {c : Char} {l : Str} (h : c ∈ stripWs l) : c ∈ l :=
  mem_lstripWs (mem_rstripWs h)

/-- Every kept line of the filtering loop is a nonempty stripped line of the
input: nonempty, newline-free (when the input lines are), and starting with a
non-whitespace character. -/
theorem eduLines_props : ∀ (ls : List Str), (∀ l ∈ ls, '\n' ∉ l) →
    ∀ p ∈ eduLines ls, p ≠ [] ∧ '\n' ∉ p ∧ ∃ c cs, p = c :: cs ∧ pyWs c = false := by
  intro ls
  induction ls with
  | nil => intro _ p hp; simp [eduLines] at hp
  | cons l rest ih =>
    intro hnl p hp
    have hrest := fun d hd => hnl d (List.mem_cons_of_mem l hd)
    rw [eduLines] at hp
    split at hp
    · exact ih hrest p hp
    · split at hp
      · simp at hp
      · split at hp
        · exact ih hrest p hp
        · split at hp
          · rcases List.mem_cons.mp hp with h1 | h2
            · subst h1
              have hne : stripWs l ≠ [] := by
                rename_i hcond _ _ _
                intro hnil
                rw [hnil] at hcond
                simp at hcond
              refine ⟨hne, ?_, ?_⟩
              · intro hm
                exact hnl l (List.mem_cons_self l rest) (mem_stripWs hm)
              · rcases stripWs_head l with h | h
                · exact absurd h hne
                · exact h
            · exact ih hrest p h2
          · exact ih hrest p hp

theorem nlOk_append_sep : ∀ (p z : Str), '\n' ∉ p → nlOk ('\n' :: z) = true →
    nlOk (p ++ '\n' :: z) = true := by
  intro p
  induction p with
  | nil => intro z _ hz; simpa using hz
  | cons c cs ih =>
    intro z hmem hz
    rw [List.cons_append, nlOk_cons, Bool.and_eq_true]
    refine ⟨?_, ih z (fun hd => hmem (List.mem_cons_of_mem c hd)) hz⟩
    rw [if_neg (fun hc => hmem (by rw [hc]; exact List.mem_cons_self _ _))]

theorem joinWith_head_cons (q : Str) (rest : List Str) (c : Char) (cs : Str)
    (hq : q = c :: cs) : ∃ tail, joinWith ['\n'] (q :: rest) = c :: tail := by
  cases rest with
  | nil => exact ⟨cs, by rw [joinWith, hq]⟩
  | cons r rs =>
    refine ⟨cs ++ ['\n'] ++ joinWith ['\n'] (r :: rs), ?_⟩
    rw [joinWith_two_cons, hq]
    simp

theorem nlOk_joinWith : ∀ (parts : List Str),
    (∀ p ∈ parts, p ≠ [] ∧ '\n' ∉ p ∧ ∃ c cs, p = c :: cs ∧ pyWs c = false) →
    nlOk (joinWith ['\n'] parts) = true := by
  intro parts
  induction parts with
  | nil => intro; rfl
  | cons p rest ih =>
    intro hall
    cases rest with
    | nil =>
      rw [joinWith]
      exact nlOk_of_not_mem p (hall p (List.mem_cons_self p [])).2.1
    | cons q rs =>
      rw [joinWith_two_cons]
      have hq := hall q (List.mem_cons_of_mem p (List.mem_cons_self q rs))
      obtain ⟨c, cs, hqeq, hcws⟩ := hq.2.2
      obtain ⟨tail, htail⟩ := joinWith_head_cons q rs c cs hqeq
      have hz : nlOk ('\n' :: joinWith ['\n'] (q :: rs)) = true := by
        rw [nlOk_cons, Bool.and_eq_true, htail]
        constructor
        · rw [if_pos rfl]
          show (!pyWs c) = true
          rw [hcws]
          rfl
        · rw [← htail]
          exact ih (fun d hd => hall d (List.mem_cons_of_mem p hd))
      have hform : p ++ ['\n'] ++ joinWith ['\n'] (q :: rs) =
          p ++ '\n' :: joinWith ['\n'] (q :: rs) := by simp
      rw [hform]
      exact nlOk_append_sep p _ (hall p (List.mem_cons_self p _)).2.1 hz

/-- The extraction output always has the isolated-newline shape: kept lines
are nonempty, stripped and newline-free, joined by single newlines, so the
collapse pass is the identity and stripping preserves the shape. -/
theorem nlOk_extractClean (content0 : Str) : nlOk (extractClean content0) = true := by
  unfold extractClean
  have hparts := eduLines_props (splitChar '\n' (stripHtml content0))
    (fun l hl => splitChar_sep_not_mem _ l hl)
  have hjoin : nlOk (joinWith ['\n'] (eduLines (splitChar '\n' (stripHtml content0)))) =
      true := nlOk_joinWith _ hparts
  rw [collapseNl_id _ _ hjoin]
  exact nlOk_stripWs hjoin

theorem extractEducational_nlOk {raw clean : Str}
    (h : extractEducational raw = Except.ok clean) : nlOk clean = true := by
  unfold extractEducational at h
  split at h
  · exact absurd h (by simp)
  · simp only [Except.ok.injEq] at h
    rw [← h]
    exact nlOk_extractClean (unwrapContent raw)

/-! ### Lemmas about the fallback structure and field bounds -/

theorem blockFields_heading (t : Str) (lv : Nat) :
    ∀ f ∈ blockFields (createHeading t lv), f.length ≤ 2000 := by
  intro f hf
  unfold createHeading at hf
  rw [blockFields] at hf
  obtain ⟨p, hp, hpf⟩ := List.mem_map.mp hf
  rw [← hpf]
  exact createRichText_content_le t p hp

theorem blockFields_paragraph (t : Str) :
    ∀ f ∈ blockFields (createParagraph t), f.length ≤ 2000 := by
  intro f hf
  unfold createParagraph at hf
  rw [blockFields] at hf
  obtain ⟨p, hp, hpf⟩ := List.mem_map.mp hf
  rw [← hpf]
  exact createRichText_content_le t p hp

theorem blockFields_bullet (t : Str) :
    ∀ f ∈ blockFields (createBullet t), f.length ≤ 2000 := by
  intro f hf
  unfold createBullet at hf
  rw [blockFields] at hf
  obtain ⟨p, hp, hpf⟩ := List.mem_map.mp hf
  rw [← hpf]
  exact createRichText_content_le t p hp

theorem manualParaBlock_length_le (para : Str) : (manualParaBlock para).length ≤ 1 := by
  unfold manualParaBlock
  split
  · simp
  · split
    · simp
    · split
      · simp
      · simp

theorem manualParaBlock_ne {para : Str} (h : stripWs para ≠ []) :
    manualParaBlock para ≠ [] := by
  unfold manualParaBlock
  rw [if_neg h]
  split
  · simp
  · split
    · simp
    · simp

theorem manualParaBlock_fields (para : Str) :
    ∀ b ∈ manualParaBlock para, ∀ f ∈ blockFields b, f.length ≤ 2000 := by
  intro b hb
  unfold manualParaBlock at hb
  split at hb
  · simp at hb
  · split at hb
    · rw [List.mem_singleton] at hb
      rw [hb]
      exact blockFields_heading _ 2
    · split at hb
      · rw [List.mem_singleton] at hb
        rw [hb]
        exact blockFields_bullet _
      · rw [List.mem_singleton] at hb
        rw [hb]
        exact blockFields_paragraph _

theorem manualStructure_length_le (clean t u : Str)
    (hsp : splitPair '\n' '\n' clean = [clean]) :
    (manualStructure clean t u).length ≤ 3 := by
  unfold manualStructure
  rw [hsp]
  simp only [List.foldr_cons, List.foldr_nil, List.append_nil]
  rw [List.length_append, List.length_append]
  have h1 : (if t ≠ [] then [createHeading t 1] else []).length ≤ 1 := by
    split
    · simp
    · simp
  have h2 : (if u ≠ [] then
      [createParagraph (['S', 'o', 'u', 'r', 'c', 'e', ':', ' '] ++ u)] else []).length ≤ 1 := by
    split
    · simp
    · simp
  have h3 := manualParaBlock_length_le clean
  omega

theorem manualStructure_ne (clean t u : Str)
    (hsp : splitPair '\n' '\n' clean = [clean]) (hstrip : stripWs clean ≠ []) :
    manualStructure clean t u ≠ [] := by
  unfold manualStructure
  rw [hsp]
  simp only [List.foldr_cons, List.foldr_nil, List.append_nil]
  intro h
  rcases List.append_eq_nil.mp h with ⟨_, h2⟩
  exact manualParaBlock_ne hstrip h2

theorem mem_foldr_paraBlocks {b : Block} :
    ∀ (parts : List Str),
      b ∈ parts.foldr (fun para acc => manualParaBlock para ++ acc) [] →
      ∃ para, b ∈ manualParaBlock para := by
  intro parts
  induction parts with
  | nil => intro h; simp at h
  | cons p rest ih =>
    intro h
    rw [List.foldr_cons] at h
    rcases List.mem_append.mp h with h1 | h2
    · exact ⟨p, h1⟩
    · exact ih h2

theorem manualStructure_fields (clean t u : Str) :
    ∀ b ∈ manualStructure clean t u, ∀ f ∈ blockFields b, f.length ≤ 2000 := by
  intro b hb
  unfold manualStructure at hb
  rcases List.mem_append.mp hb with h1 | h2
  · rcases List.mem_append.mp h1 with h3 | h4
    · split at h3
      · rw [List.mem_singleton] at h3
        rw [h3]
        exact blockFields_heading t 1
      · simp at h3
    · split at h4
      · rw [List.mem_singleton] at h4
        rw [h4]
        exact blockFields_paragraph _
      · simp at h4
  · obtain ⟨para, hpb⟩ := mem_foldr_paraBlocks _ h2
    exact manualParaBlock_fields para b hpb

theorem errorBlocks_length (msg : Str) : (createErrorBlocks msg).length = 3 := rfl

theorem errorBlocks_ne (msg : Str) : createErrorBlocks msg ≠ [] := by
  unfold createErrorBlocks
  simp

theorem errorBlocks_fields (msg : Str) :
    ∀ b ∈ createErrorBlocks msg, ∀ f ∈ blockFields b, f.length ≤ 2000 := by
  intro b hb
  unfold createErrorBlocks at hb
  rcases List.mem_cons.mp hb with h1 | hb
  · rw [h1]; exact blockFields_heading _ 1
  rcases List.mem_cons.mp hb with h2 | hb
  · rw [h2]; exact blockFields_paragraph _
  rcases List.mem_cons.mp hb with h3 | hb
  · rw [h3]; exact blockFields_paragraph _
  · simp at hb

theorem afterAi_ok_ne (clean t u : Str) (ai : Option (Except Unit Str))
    (hsp : splitPair '\n' '\n' clean = [clean]) (hstrip : stripWs clean ≠ []) :
    ∃ bs, afterAi clean t u ai = Except.ok bs ∧ bs ≠ [] := by
  unfold afterAi
  match ai with
  | none => exact ⟨_, rfl, manualStructure_ne clean t u hsp hstrip⟩
  | some (Except.error _) => exact ⟨_, rfl, manualStructure_ne clean t u hsp hstrip⟩
  | some (Except.ok resp) =>
    by_cases hai : aiStructure resp ≠ []
    · exact ⟨aiStructure resp, by dsimp only; rw [if_pos hai], hai⟩
    · refine ⟨manualStructure clean t u, by dsimp only; rw [if_neg hai],
        manualStructure_ne clean t u hsp hstrip⟩

/-- C1 amended: the assemble operation raises `ValueError` when the
blocked-page detector fires inside extraction (see the counterexample); for
every input on which extraction succeeds, the operation returns a non-empty
block list for every AI-collaborator outcome, absorbing AI failures into the
manual fallback. -/
theorem C1_amended_ok_nonempty (raw title url : Str) (ai : Option (Except Unit Str))
    (clean : Str) (h : extractEducational raw = Except.ok clean) :
    ∃ bs, parseAndFormat raw title url ai = Except.ok bs ∧ bs ≠ [] := by
  have hnl := extractEducational_nlOk h
  have hsp := splitPair_of_nlOk clean hnl
  unfold parseAndFormat
  rw [h]
  dsimp only
  split
  · split
    · rename_i hcond
      have hstrip : stripWs clean ≠ [] := by
        intro hs
        rw [hs] at hcond
        simp at hcond
      exact afterAi_ok_ne clean title url ai hsp hstrip
    · exact ⟨_, rfl, errorBlocks_ne _⟩
  · rename_i hcond
    have hstrip : stripWs clean ≠ [] := by
      intro hs
      apply hcond
      right
      rw [hs]
      simp
    exact afterAi_ok_ne clean title url ai hsp hstrip

/-- Witness for `C1_amended_ok_nonempty` at empty raw content (extraction
succeeds with empty clean text; the error-block path returns three blocks). -/
theorem C1_witness :
    extractEducational [] = Except.ok [] ∧
      ∃ bs, parseAndFormat [] [] [] none = Except.ok bs ∧ bs ≠ [] :=
  ⟨by decide, C1_amended_ok_nonempty [] [] [] none [] (by decide)⟩

/-- C2 amended: on the AI-disabled path (`use_ai=False` or no model), every
output of the assemble operation has at most 100 top-level blocks (in fact at
most 3) and every rich-text content field is at most 2000 characters; with an
AI outcome the block count is unbounded (see the counterexample). -/
theorem C2_amended_no_ai_bounds (raw title url : Str) (bs : List Block)
    (h : parseAndFormat raw title url none = Except.ok bs) :
    bs.length ≤ 100 ∧ ∀ b ∈ bs, ∀ f ∈ blockFields b, f.length ≤ 2000 := by
  unfold parseAndFormat at h
  cases hex : extractEducational raw with
  | error e =>
    rw [hex] at h
    exact absurd h (by simp)
  | ok clean =>
    rw [hex] at h
    dsimp only at h
    have hnl := extractEducational_nlOk hex
    have hsp := splitPair_of_nlOk clean hnl
    have hmanual : afterAi clean title url none =
        Except.ok (manualStructure clean title url) := rfl
    split at h
    · split at h
      · rw [hmanual] at h
        simp only [Except.ok.injEq] at h
        rw [← h]
        exact ⟨(manualStructure_length_le clean title url hsp).trans (by norm_num),
          manualStructure_fields clean title url⟩
      · simp only [Except.ok.injEq] at h
        rw [← h]
        refine ⟨?_, errorBlocks_fields _⟩
        rw [errorBlocks_length]
        norm_num
    · rw [hmanual] at h
      simp only [Except.ok.injEq] at h
      rw [← h]
      exact ⟨(manualStructure_length_le clean title url hsp).trans (by norm_num),
        manualStructure_fields clean title url⟩

/-- Witness for `C2_amended_no_ai_bounds` at empty raw content with the
concrete error-block output. -/
theorem C2_witness :
    parseAndFormat [] ("Intro").data ("http://example.com").data none =
        Except.ok (createErrorBlocks ("No educational content found on this page").data) ∧
      (createErrorBlocks ("No educational content found on this page").data).length ≤ 100 ∧
      ∀ b ∈ createErrorBlocks ("No educational content found on this page").data,
        ∀ f ∈ blockFields b, f.length ≤ 2000 :=
  ⟨by decide,
    C2_amended_no_ai_bounds [] ("Intro").data ("http://example.com").data _ (by decide)⟩

/-- Witness for `C9_amended_non_http_dropped` at alt "a", URL `file:///x`. -/
theorem C9_witness :
    (']' ∉ ("a").data) ∧
      startsWithL ("http://").data (stripWs ("file:///x").data) = false ∧
      mdToBlocks (("![").data ++ ("a").data ++ ("](").data ++ ("file:///x").data ++
        (")").data) = [] :=
  ⟨by decide, by decide,
    C9_amended_non_http_dropped ("a").data ("file:///x").data (by decide) (by decide)
      (by decide) (by decide) (by decide) (by decide) (by decide) (by decide)⟩
